import Mathlib

/-!
# Identify: template store, position cache, feature matcher, OCR text filter

A shallow embedding of `MeoAssistance/src/Identify.cpp`.

Modelling conventions.

* The OpenCV primitives, the OCR engine and `asst::Rect::center_zoom` are
  collaborators that live outside `Identify.cpp`; they are the fields of
  `Externals` and every definition takes them as its first argument.  A call
  of a collaborator is taken to return a value: the conditions under which
  OpenCV itself raises are not part of `Identify.cpp`.
* The members of `Identify` (`m_mat_map`, `m_feature_map`, `m_use_cache`,
  `m_cache_map`) are the fields of the state record `Identify`; a member
  function that mutates the object returns the new state next to its result.
* `std::unordered_map` is a list of key/value pairs read front to back; the list
  order stands for the (unspecified) iteration order of the container.
* `double` similarity scores are values of an arbitrary type `Score` that has
  `0`, `1`, subtraction and a decidable order.
* Key point positions are `float` values (`Float32`): a finite binary32 number
  is held as the integer count of units of `2 ^ -149`, and every sum or
  difference of the source is rounded to 24 significant bits, to nearest, ties
  to even.  A conversion from `float` to `int` truncates toward zero.  The
  expressions are evaluated in single precision, as on x86-64; infinities and
  NaN, and conversions of values outside the range of `int`, are not modelled.
* Descriptor distances are integer multiples of one fixed unit.  Products with
  the decimal literals `0.4` and `0.075` are compared exactly, by cross
  multiplication.  The evaluation of the two comparisons in binary64
  arithmetic is modelled as well:
  the acceptance test (`size_accepted_binary64`) agrees with the exact
  comparison for every query size below `2 ^ 50`, the ratio test
  (`ratio_kept_binary64`) for `float` distances of which the larger is below
  `2 ^ 100` units in the last place of the smaller.
* `std::vector::at` outside the range of the vector raises
  `Exception.out_of_range`; functions that can raise return `Except`.
-/

namespace Asst

/-! ## Geometry and result types -/

/-- The type `cv::Point`. -/
structure Point where
  x : Int
  y : Int
deriving DecidableEq, Repr

/-- The type `float`: a finite binary32 value, held as the integer number of
units of `2 ^ -149` (the smallest positive binary32 value) it is made of.  The
whole number `n` is `n * 2 ^ 149` units. -/
structure Float32 where
  units : Int
deriving DecidableEq, Repr

/-- The number of low bits of `N` that do not fit a significand of 24 bits:
`0` below `2 ^ 24`, else one more than for `N / 2` (`fuel` bounds the count). -/
def excess_bits_binary32 : Nat → Nat → Nat
  | 0, _ => 0
  | fuel + 1, N => if N < 2 ^ 24 then 0 else excess_bits_binary32 fuel (N / 2) + 1

/-- Rounding to binary32: the number of units `N` rounded to 24 significant
bits, to nearest, ties to even.  Below `2 ^ 24` units (the subnormal numbers and
the first binade) every count is a binary32 value. -/
def round_binary32 (N : Nat) : Nat :=
  let e := excess_bits_binary32 512 N
  let q := N / 2 ^ e
  let r := N % 2 ^ e
  if 2 * r < 2 ^ e ∨ (2 * r = 2 ^ e ∧ q % 2 = 0) then q * 2 ^ e else (q + 1) * 2 ^ e

/-- The `float` nearest to the exact value of `z` units: the magnitude is
rounded, the sign kept. -/
def Float32.round (z : Int) : Float32 :=
  if 0 ≤ z then ⟨round_binary32 z.toNat⟩ else ⟨-(round_binary32 (-z).toNat : Int)⟩

/-- The conversion of an `int` to `float` (the usual arithmetic conversion of
the `int` operand of `int + float` and `int - float`). -/
def int_to_float (i : Int) : Float32 := Float32.round (i * 2 ^ 149)

/-- A whole-number literal of type `float`. -/
instance (n : Nat) : OfNat Float32 n := ⟨int_to_float n⟩

/-- The sum of two `float` values: the exact sum, rounded. -/
instance : Add Float32 := ⟨fun a b => Float32.round (a.units + b.units)⟩

/-- The difference of two `float` values: the exact difference, rounded. -/
instance : Sub Float32 := ⟨fun a b => Float32.round (a.units - b.units)⟩

/-- The call `std::abs` on a `float`. -/
def Float32.abs (a : Float32) : Float32 := ⟨|a.units|⟩

/-- The conversion of a `float` to `int`: the fractional part is discarded
(truncation toward zero). -/
def float_to_int (a : Float32) : Int :=
  if 0 ≤ a.units then a.units / 2 ^ 149 else -((-a.units) / 2 ^ 149)

/-- The type `cv::Point2f`. -/
structure Point2f where
  x : Float32
  y : Float32
deriving DecidableEq, Repr

/-- The type `cv::Rect`. -/
structure CvRect where
  x : Int
  y : Int
  width : Int
  height : Int
deriving DecidableEq, Repr

/-- The type `asst::Rect`: integer `(x, y, width, height)`. -/
structure Rect where
  x : Int
  y : Int
  width : Int
  height : Int
deriving DecidableEq, Repr

/-- Modelled from the spec: the default constructor `asst::Rect()` (declared in a
header that is not part of the sources) gives the empty rectangle. -/
def Rect.empty : Rect := ⟨0, 0, 0, 0⟩

/-- The type `asst::TextArea`: a recognised text and where it is on screen. -/
structure TextArea where
  text : String
  rect : Rect
deriving DecidableEq, Repr

/-- The enumeration `AlgorithmType`. -/
inductive AlgorithmType where
  | JustReturn
  | MatchTemplate
  | CompareHist
deriving DecidableEq, Repr

/-- The type `cv::KeyPoint`; only its position `pt` is read by the code. -/
structure KeyPoint where
  pt : Point2f
deriving DecidableEq, Repr

/-- The type `cv::DMatch`: a correspondence between descriptor `queryIdx` of the
reference image and descriptor `trainIdx` of the frame. -/
structure DMatch where
  queryIdx : Int
  trainIdx : Int
  distance : Int
deriving DecidableEq, Repr

/-- One `TextBlock` of the OCR engine: the text and the corners of its box. -/
structure TextBlock where
  text : String
  boxPoint : List Point
deriving DecidableEq, Repr

/-- What a checked access can raise. -/
inductive Exception where
  | out_of_range
deriving DecidableEq, Repr

deriving instance DecidableEq for Except

/-! ## Containers -/

/-- The lookup `m.find(key)` of a `std::unordered_map`; `none` is `m.cend()`. -/
def map_find {V : Type} : List (String × V) → String → Option V
  | [], _ => none
  | (k, v) :: rest, key => if k = key then some v else map_find rest key

/-- The call `m.emplace(key, value)`: inserts only when `key` has no entry. -/
def map_emplace {V : Type} (m : List (String × V)) (key : String) (value : V) :
    List (String × V) :=
  match map_find m key with
  | some _ => m
  | none => m ++ [(key, value)]

/-- The number of entries stored under `key`. -/
def map_count {V : Type} (m : List (String × V)) (key : String) : Nat :=
  (m.filter (fun kv => decide (kv.1 = key))).length

/-! ## Collaborators and state -/

/-- The collaborators of `Identify.cpp`. -/
structure Externals (Mat Hist Desc Score : Type) where
  /-- The call `cv::imread(path)`. -/
  imread : String → Mat
  /-- The test `mat.empty()`. -/
  empty : Mat → Bool
  /-- The members `mat.cols` and `mat.rows`. -/
  cols : Mat → Int
  rows : Mat → Int
  /-- The sub-image `cur(rect)`. -/
  roi : Mat → CvRect → Mat
  /-- The hue/saturation histogram computed by `image_2_hist`
  (`cvtColor`, `calcHist`, `normalize`). -/
  image_2_hist : Mat → Hist
  /-- The call `cv::compareHist(a, b, CV_COMP_BHATTACHARYYA)`. -/
  compareHist : Hist → Hist → Score
  /-- The best score and its location found by `match_template`
  (`cvtColor`, `matchTemplate`, `minMaxLoc`). -/
  match_template : Mat → Mat → Score × Point
  /-- The key points and descriptors computed by `surf_detect`. -/
  surf_detect : Mat → List KeyPoint × Desc
  /-- The call `matcher.match(query, train, matches)`. -/
  flann_match : Desc → Desc → List DMatch
  /-- The status vector filled by `cv::findFundamentalMat(q, t, status, FM_RANSAC)`. -/
  findFundamentalMat : List Point → List Point → List Nat
  /-- The call `cv::saturate_cast<int>` on a `float`, which the conversion of a
  `cv::Point2f` to a `cv::Point` applies to each coordinate: a nearest
  integer. -/
  saturate_cast : Float32 → Int
  /-- The text blocks of `m_ocr_lite.detect`. -/
  ocr_lite_detect : Mat → List TextBlock
  /-- The call `rect.center_zoom(0.8)` of `asst::Rect`. -/
  center_zoom : Rect → Rect
  /-- The text a `std::string` is left with when it has been moved from.  The
  language leaves it unspecified; libstdc++, libc++ and the MSVC library leave
  the string empty. -/
  moved_string : String → String

/-- The data members of class `Identify`. -/
structure Identify (Mat Hist Desc : Type) where
  m_mat_map : List (String × Mat)
  m_feature_map : List (String × (List KeyPoint × Desc))
  m_use_cache : Bool
  m_cache_map : List (String × (CvRect × Hist))

section Code

variable {Mat Hist Desc Score : Type}

/-! ## Registration and cache control -/

/-- The member `Identify::add_image`. -/
def add_image (cv : Externals Mat Hist Desc Score) (self : Identify Mat Hist Desc)
    (name path : String) : Bool × Identify Mat Hist Desc :=
  let mat := cv.imread path
  if cv.empty mat then
    (false, self)
  else
    (true, { self with m_mat_map := map_emplace self.m_mat_map name mat })

/-- The member `Identify::add_text_image`. -/
def add_text_image (cv : Externals Mat Hist Desc Score) (self : Identify Mat Hist Desc)
    (text path : String) : Bool × Identify Mat Hist Desc :=
  let mat := cv.imread path
  if cv.empty mat then
    (false, self)
  else
    (true, { self with m_feature_map := map_emplace self.m_feature_map text (cv.surf_detect mat) })

/-- The member `Identify::set_use_cache`. -/
def set_use_cache (self : Identify Mat Hist Desc) (b : Bool) : Identify Mat Hist Desc :=
  if b then
    { self with m_use_cache := true }
  else
    { self with m_cache_map := [], m_use_cache := false }

/-- The member `Identify::clear_cache`. -/
def clear_cache (self : Identify Mat Hist Desc) : Identify Mat Hist Desc :=
  { self with m_cache_map := [] }

/-! ## Template matching with the position cache -/

/-- The member `Identify::image_hist_comp`. -/
def image_hist_comp [One Score] [Sub Score] (cv : Externals Mat Hist Desc Score)
    (src : Mat) (hist : Hist) : Score :=
  1 - cv.compareHist (cv.image_2_hist src) hist

/-- The member `Identify::cvrect_2_rect`. -/
def cvrect_2_rect (cvRect : CvRect) : Rect :=
  ⟨cvRect.x, cvRect.y, cvRect.width, cvRect.height⟩

/-- The member `Identify::find_image`: the result triple and the state after
the call. -/
def find_image [Zero Score] [One Score] [Sub Score] [LE Score]
    [DecidableRel (fun a b : Score => a ≤ b)]
    (cv : Externals Mat Hist Desc Score) (self : Identify Mat Hist Desc)
    (cur : Mat) (templ : String) (templ_threshold : Score) :
    (AlgorithmType × Score × Rect) × Identify Mat Hist Desc :=
  match map_find self.m_mat_map templ with
  | none => ((AlgorithmType.JustReturn, 0, Rect.empty), self)
  | some templ_mat =>
    match (if self.m_use_cache then map_find self.m_cache_map templ else none) with
    | some (rect, hist) =>
      let value := image_hist_comp cv (cv.roi cur rect) hist
      ((AlgorithmType.CompareHist, value, cv.center_zoom (cvrect_2_rect rect)), self)
    | none =>
      let (value, point) := cv.match_template cur templ_mat
      let raw_rect : CvRect := ⟨point.x, point.y, cv.cols templ_mat, cv.rows templ_mat⟩
      let self1 :=
        if self.m_use_cache ∧ templ_threshold ≤ value then
          { self with m_cache_map :=
              map_emplace self.m_cache_map templ (raw_rect, cv.image_2_hist (cv.roi cur raw_rect)) }
        else self
      ((AlgorithmType.MatchTemplate, value, cv.center_zoom (cvrect_2_rect raw_rect)), self1)

/-! ## OCR-backed text lookup -/

/-- The member `Identify::ocr_detect`: the text blocks that have four corners,
each with the rectangle spanned by corners 0, 1 and 3. -/
def ocr_detect (cv : Externals Mat Hist Desc Score) (mat : Mat) : List TextArea :=
  (cv.ocr_lite_detect mat).filterMap fun text_block =>
    match text_block.boxPoint with
    | [p0, p1, _, p3] => some ⟨text_block.text, ⟨p0.x, p0.y, p1.x - p0.x, p3.y - p0.y⟩⟩
    | _ => none

/-- The loop of `find_text(const cv::Mat&, const std::string&)`. -/
def find_text_first : List TextArea → String → Option Rect
  | [], _ => none
  | res :: rest, text => if res.text = text then some res.rect else find_text_first rest text

/-- The overload `Identify::find_text(const cv::Mat&, const std::string&)`. -/
def find_text (cv : Externals Mat Hist Desc Score) (mat : Mat) (text : String) : Option Rect :=
  find_text_first (ocr_detect cv mat) text

/-- The object `res` after `std::move(res)` has been consumed by `emplace_back`:
the text has been moved out; the rectangle is four plain integers and keeps
its value. -/
def moved_from (cv : Externals Mat Hist Desc Score) (res : TextArea) : TextArea :=
  { res with text := cv.moved_string res.text }

/-- The inner loop `for (const std::string& t : texts)` of the two collection
overloads of `find_text`, run on one detected area `res`: the state is `res`
itself (it is moved from on a match) and the output vector `dst`. -/
def find_text_labels (cv : Externals Mat Hist Desc Score) :
    List String → TextArea → List TextArea → TextArea × List TextArea
  | [], res, dst => (res, dst)
  | t :: ts, res, dst =>
    if res.text = t then find_text_labels cv ts (moved_from cv res) (dst ++ [res])
    else find_text_labels cv ts res dst

/-- The outer loop `for (TextArea& res : detect_result)` of the two collection
overloads of `find_text`. -/
def find_text_areas (cv : Externals Mat Hist Desc Score) (texts : List String) :
    List TextArea → List TextArea → List TextArea
  | [], dst => dst
  | res :: rest, dst => find_text_areas cv texts rest (find_text_labels cv texts res dst).2

/-- The overload `Identify::find_text(const cv::Mat&, const std::vector<std::string>&)`. -/
def find_text_vector (cv : Externals Mat Hist Desc Score) (mat : Mat) (texts : List String) :
    List TextArea :=
  find_text_areas cv texts (ocr_detect cv mat) []

/-- The overload
`Identify::find_text(const cv::Mat&, const std::unordered_set<std::string>&)`;
`texts` lists the elements of the set in its iteration order. -/
def find_text_unordered_set (cv : Externals Mat Hist Desc Score) (mat : Mat)
    (texts : List String) : List TextArea :=
  find_text_areas cv texts (ocr_detect cv mat) []

/-! ## Feature matching -/

/-- The call `std::max_element(matches.cbegin(), matches.cend(), by distance)`:
the first correspondence of largest distance, `none` for `matches.cend()`. -/
def max_element : List DMatch → Option DMatch
  | [] => none
  | m :: rest => some (rest.foldl (fun largest d => if largest.distance < d.distance then d else largest) m)

/-- Numerator and denominator of the literal `MatchRatio = 0.4`. -/
def MatchRatio_num : Int := 4
def MatchRatio_den : Int := 10

/-- Numerator and denominator of the literal `MatchSizeRatioThreshold = 0.075`. -/
def MatchSizeRatioThreshold_num : Nat := 75
def MatchSizeRatioThreshold_den : Nat := 1000

/-- One row of the parallel vectors `approach_matches`,
`train_approach_keypoints`, `query_approach_keypoints` (the vectors
`train_approach_points` and `query_approach_points` hold the `pt` of the key
points); the same rows make up the `ransac_*` and `good_*` vectors. -/
structure Approach where
  dmatch : DMatch
  train_keypoint : KeyPoint
  query_keypoint : KeyPoint
deriving DecidableEq, Repr

/-- The conversion of a `cv::Point2f` to a `cv::Point`, made when a key point
position is placed in a `std::vector<cv::Point>` (`train_approach_points`,
`query_approach_points`, `good_points`). -/
def point2f_to_point (cv : Externals Mat Hist Desc Score) (pt : Point2f) : Point :=
  ⟨cv.saturate_cast pt.x, cv.saturate_cast pt.y⟩

/-- The body of the loop `for (const cv::DMatch dmatch : matches)`: ratio
pruning against `maxdist * MatchRatio`, then the index range check. -/
def approach_step (maxdist : Int) (query_keypoints train_keypoints : List KeyPoint)
    (approach : List Approach) (dmatch : DMatch) : List Approach :=
  if dmatch.distance * MatchRatio_den < maxdist * MatchRatio_num then
    if 0 ≤ dmatch.queryIdx ∧ dmatch.queryIdx < query_keypoints.length
        ∧ 0 ≤ dmatch.trainIdx ∧ dmatch.trainIdx < train_keypoints.length then
      match train_keypoints[dmatch.trainIdx.toNat]?, query_keypoints[dmatch.queryIdx.toNat]? with
      | some t, some q => approach ++ [⟨dmatch, t, q⟩]
      | _, _ => approach
    else approach
  else approach

/-- The loop `for (size_t i = 0; i != approach_matches.size(); ++i)` from index
`i` on: `ransac_status.at(i)` raises when `i` is not an index of the status
vector; rows with a non-zero status are kept. -/
def ransac_loop (ransac_status : List Nat) : Nat → List Approach → Except Exception (List Approach)
  | _, [] => .ok []
  | i, a :: rest =>
    match ransac_status[i]? with
    | none => .error Exception.out_of_range
    | some status =>
      match ransac_loop ransac_status (i + 1) rest with
      | .error e => .error e
      | .ok kept => .ok (if status ≠ 0 then a :: kept else kept)

/-- The call `std::accumulate` over `train_ransac_keypoints`, from `cv::Point()`.
Each step builds `cv::Point(sum.x + rhs.pt.x, sum.y + rhs.pt.y)`: the `int` sum
is converted to `float`, the addition is made in single precision, and the
result is converted back to `int`. -/
def sum_points (train_ransac_keypoints : List Approach) : Point :=
  train_ransac_keypoints.foldl
    (fun sum rhs => ⟨float_to_int (int_to_float sum.x + rhs.train_keypoint.pt.x),
      float_to_int (int_to_float sum.y + rhs.train_keypoint.pt.y)⟩) ⟨0, 0⟩

/-- Conversion of an `int` to `size_t` (64 bits). -/
def int_to_size_t (i : Int) : Nat := (i % 2 ^ 64).toNat

/-- Conversion of a `size_t` to `int` (32 bits, two's complement). -/
def size_t_to_int (n : Nat) : Int :=
  if n % 2 ^ 32 < 2 ^ 31 then ((n % 2 ^ 32 : Nat) : Int) else ((n % 2 ^ 32 : Nat) : Int) - 2 ^ 32

/-- The point `avg_point(sum_point.x / point_size, sum_point.y / point_size)`:
the divisions are between an `int` and a `size_t`, so they are unsigned. -/
def avg_point (sum_point : Point) (point_size : Nat) : Point :=
  ⟨size_t_to_int (int_to_size_t sum_point.x / point_size),
   size_t_to_int (int_to_size_t sum_point.y / point_size)⟩

/-- The centroid loop: the rows whose key point is closer than
`DistanceThreshold` to `avg_point` on both axes (`good_matchs`, `good_points`).
The distances are `int x_distance = std::abs(avg_point.x - pt.x)`: a
single-precision difference, its absolute value, converted to `int`. -/
def centroid_loop (DistanceThreshold : Int) (avg_point : Point) (train_ransac_keypoints : List Approach) :
    List Approach :=
  train_ransac_keypoints.filter fun a =>
    let x_distance := float_to_int (Float32.abs (int_to_float avg_point.x - a.train_keypoint.pt.x))
    let y_distance := float_to_int (Float32.abs (int_to_float avg_point.y - a.train_keypoint.pt.y))
    decide (x_distance < DistanceThreshold ∧ y_distance < DistanceThreshold)

/-- The four running bounds `left`, `right`, `top`, `bottom`. -/
structure Bounds where
  left : Int
  right : Int
  top : Int
  bottom : Int
deriving DecidableEq, Repr

/-- The body of the loop `for (const cv::Point& pt : good_points)`. -/
def bounds_step (b : Bounds) (pt : Point) : Bounds :=
  { left := if pt.x < b.left ∨ b.left = 0 then pt.x else b.left
    right := if pt.x > b.right ∨ b.right = 0 then pt.x else b.right
    top := if pt.y < b.top ∨ b.top = 0 then pt.y else b.top
    bottom := if pt.y > b.bottom ∨ b.bottom = 0 then pt.y else b.bottom }

/-- The bounds after the loop over `good_points`, from `0, 0, 0, 0`. -/
def bounds_loop (good_points : List Point) : Bounds :=
  good_points.foldl bounds_step ⟨0, 0, 0, 0⟩

/-- The rectangle `{ left, top, right - left, bottom - top }`. -/
def bounds_rect (b : Bounds) : Rect :=
  ⟨b.left, b.top, b.right - b.left, b.bottom - b.top⟩

/-- The acceptance test
`good_points.size() >= query_keypoints.size() * MatchSizeRatioThreshold`. -/
def size_accepted (good_size query_size : Nat) : Bool :=
  decide (good_size * MatchSizeRatioThreshold_den ≥ query_size * MatchSizeRatioThreshold_num)

/-- The number of low bits of `N` that do not fit a significand of 53 bits:
`0` below `2 ^ 53`, else one more than for `N / 2` (`fuel` bounds the count). -/
def excess_bits : Nat → Nat → Nat
  | 0, _ => 0
  | fuel + 1, N => if N < 2 ^ 53 then 0 else excess_bits fuel (N / 2) + 1

/-- Rounding to binary64: `N` rounded to 53 significant bits, to nearest, ties
to even.  Scaling by a power of two does not change the significand, so this
also rounds `N / 2 ^ k`. -/
def round_binary64 (N : Nat) : Nat :=
  let e := excess_bits 128 N
  let q := N / 2 ^ e
  let r := N % 2 ^ e
  if 2 * r < 2 ^ e ∨ (2 * r = 2 ^ e ∧ q % 2 = 0) then q * 2 ^ e else (q + 1) * 2 ^ e

/-- The `double` nearest to `0.075` is `5404319552844595 / 2 ^ 56`. -/
def MatchSizeRatioThreshold_binary64 : Nat := 5404319552844595

/-- The acceptance test as binary64 arithmetic carries it out: both sizes are
converted to `double`, the query size is multiplied by the `double` `0.075` and
the product is rounded; all values are in units of `2 ^ -56`. -/
def size_accepted_binary64 (good_size query_size : Nat) : Bool :=
  decide (round_binary64 good_size * 2 ^ 56
    ≥ round_binary64 (round_binary64 query_size * MatchSizeRatioThreshold_binary64))

/-- The `double` nearest to `0.4` is `3602879701896397 / 2 ^ 53`. -/
def MatchRatio_binary64 : Nat := 3602879701896397

/-- The ratio test `dmatch.distance < maxdist * MatchRatio` as binary64
arithmetic carries it out: the two `float` distances convert to `double`
without rounding, `maxdist` is multiplied by the `double` `0.4` and the product
is rounded; the distances are natural multiples of a unit, the compared values
are in units of `2 ^ -53`. -/
def ratio_kept_binary64 (distance maxdist : Nat) : Bool :=
  decide (distance * 2 ^ 53 < round_binary64 (maxdist * MatchRatio_binary64))

/-- The end of the pipeline: the acceptance test and, when it passes, the
`TextArea` built from the bounds of `good_points`. -/
def accept_area (key : String) (query_size : Nat) (good_points : List Point) : Option TextArea :=
  if size_accepted good_points.length query_size then
    some ⟨key, bounds_rect (bounds_loop good_points)⟩
  else none

/-- The part of `feature_match` after the RANSAC loop: the zero-inlier check,
the centroid filter with `DistanceThreshold = 200`, and the acceptance test. -/
def feature_match_tail (cv : Externals Mat Hist Desc Score) (key : String) (query_size : Nat)
    (train_ransac_keypoints : List Approach) : Option TextArea :=
  let point_size := train_ransac_keypoints.length
  if point_size = 0 then none
  else
    let avg := avg_point (sum_points train_ransac_keypoints) point_size
    let good := centroid_loop 200 avg train_ransac_keypoints
    accept_area key query_size (good.map fun a => point2f_to_point cv a.train_keypoint.pt)

/-- The member `Identify::feature_match`. -/
def feature_match (cv : Externals Mat Hist Desc Score) (self : Identify Mat Hist Desc)
    (mat : Mat) (key : String) : Except Exception (Option TextArea) :=
  match map_find self.m_feature_map key with
  | none => .ok none
  | some (query_keypoints, query_mat_vector) =>
    let (train_keypoints, train_mat_vector) := cv.surf_detect mat
    let all_matches := cv.flann_match query_mat_vector train_mat_vector
    match max_element all_matches with
    | none => .ok none
    | some max_iter =>
      let maxdist := max_iter.distance
      let approach := all_matches.foldl (approach_step maxdist query_keypoints train_keypoints) []
      let ransac_status := cv.findFundamentalMat
        (approach.map fun a => point2f_to_point cv a.query_keypoint.pt)
        (approach.map fun a => point2f_to_point cv a.train_keypoint.pt)
      match ransac_loop ransac_status 0 approach with
      | .error e => .error e
      | .ok train_ransac_keypoints =>
        .ok (feature_match_tail cv key query_keypoints.length train_ransac_keypoints)

/-- The body of the loop `for (auto&& [key, feature] : m_feature_map)` of
`feature_match_all`; `continue` leaves `matched_text_area` as it is. -/
def feature_match_all_step (cv : Externals Mat Hist Desc Score)
    (train_keypoints : List KeyPoint) (train_mat_vector : Desc)
    (matched_text_area : List TextArea) (entry : String × (List KeyPoint × Desc)) :
    Except Exception (List TextArea) :=
  let key := entry.1
  let (query_keypoints, query_mat_vector) := entry.2
  let all_matches := cv.flann_match query_mat_vector train_mat_vector
  match max_element all_matches with
  | none => .ok matched_text_area
  | some max_iter =>
    let maxdist := max_iter.distance
    let approach := all_matches.foldl (approach_step maxdist query_keypoints train_keypoints) []
    let ransac_status := cv.findFundamentalMat
      (approach.map fun a => point2f_to_point cv a.query_keypoint.pt)
      (approach.map fun a => point2f_to_point cv a.train_keypoint.pt)
    match ransac_loop ransac_status 0 approach with
    | .error e => .error e
    | .ok train_ransac_keypoints =>
      let point_size := train_ransac_keypoints.length
      if point_size = 0 then .ok matched_text_area
      else
        let avg := avg_point (sum_points train_ransac_keypoints) point_size
        let good := centroid_loop 300 avg train_ransac_keypoints
        let good_points := good.map fun a => point2f_to_point cv a.train_keypoint.pt
        if size_accepted good_points.length query_keypoints.length then
          .ok (matched_text_area ++ [⟨key, bounds_rect (bounds_loop good_points)⟩])
        else .ok matched_text_area

/-- The loop of `feature_match_all` over the entries of `m_feature_map`. -/
def feature_match_all_loop (cv : Externals Mat Hist Desc Score)
    (train_keypoints : List KeyPoint) (train_mat_vector : Desc) :
    List (String × (List KeyPoint × Desc)) → List TextArea → Except Exception (List TextArea)
  | [], matched_text_area => .ok matched_text_area
  | entry :: rest, matched_text_area =>
    match feature_match_all_step cv train_keypoints train_mat_vector matched_text_area entry with
    | .error e => .error e
    | .ok matched => feature_match_all_loop cv train_keypoints train_mat_vector rest matched

/-- The member `Identify::feature_match_all`. -/
def feature_match_all (cv : Externals Mat Hist Desc Score) (self : Identify Mat Hist Desc)
    (mat : Mat) : Except Exception (List TextArea) :=
  let (train_keypoints, train_mat_vector) := cv.surf_detect mat
  feature_match_all_loop cv train_keypoints train_mat_vector self.m_feature_map []

/-! ## Sequences of calls -/

/-- A call of a member function that can change the object. -/
inductive Call (Mat Score : Type) where
  | add_image (name path : String)
  | add_text_image (text path : String)
  | set_use_cache (b : Bool)
  | clear_cache
  | find_image (cur : Mat) (templ : String) (templ_threshold : Score)

/-- The state after one call. -/
def after_call [Zero Score] [One Score] [Sub Score] [LE Score]
    [DecidableRel (fun a b : Score => a ≤ b)]
    (cv : Externals Mat Hist Desc Score) (self : Identify Mat Hist Desc) :
    Call Mat Score → Identify Mat Hist Desc
  | .add_image name path => (add_image cv self name path).2
  | .add_text_image text path => (add_text_image cv self text path).2
  | .set_use_cache b => set_use_cache self b
  | .clear_cache => clear_cache self
  | .find_image cur templ templ_threshold => (find_image cv self cur templ templ_threshold).2

/-- The state after a sequence of calls, first call first. -/
def after_calls [Zero Score] [One Score] [Sub Score] [LE Score]
    [DecidableRel (fun a b : Score => a ≤ b)]
    (cv : Externals Mat Hist Desc Score) (self : Identify Mat Hist Desc)
    (calls : List (Call Mat Score)) : Identify Mat Hist Desc :=
  calls.foldl (after_call cv) self

/-! ## Reference definitions

Definitions that follow the wording of the specification; the code above is
compared with them. -/

/-- Specification: the per-label pipeline of the feature matcher (look the
label up, match descriptors, prune by ratio, keep the RANSAC inliers, filter
around the centroid, test acceptance, box the survivors) with the
centroid-filter distance threshold as a parameter. -/
def feature_match_with (DistanceThreshold : Int) (cv : Externals Mat Hist Desc Score)
    (self : Identify Mat Hist Desc) (mat : Mat) (key : String) : Except Exception (Option TextArea) :=
  match map_find self.m_feature_map key with
  | none => .ok none
  | some feature =>
    let scene := cv.surf_detect mat
    let all_matches := cv.flann_match feature.2 scene.2
    match max_element all_matches with
    | none => .ok none
    | some worst =>
      let pruned := all_matches.foldl (approach_step worst.distance feature.1 scene.1) []
      let flags := cv.findFundamentalMat
        (pruned.map fun a => point2f_to_point cv a.query_keypoint.pt)
        (pruned.map fun a => point2f_to_point cv a.train_keypoint.pt)
      match ransac_loop flags 0 pruned with
      | .error e => .error e
      | .ok inliers =>
        if inliers.length = 0 then .ok none
        else
          let centroid := avg_point (sum_points inliers) inliers.length
          let survivors := centroid_loop DistanceThreshold centroid inliers
          .ok (accept_area key feature.1.length
            (survivors.map fun a => point2f_to_point cv a.train_keypoint.pt))

/-- Specification: run a pipeline for every label in turn; the first one that
raises ends the run, a label that is rejected contributes nothing, a label that
is accepted contributes its `TextArea`. -/
def collect_areas : List (Except Exception (Option TextArea)) → Except Exception (List TextArea)
  | [] => .ok []
  | .error e :: _ => .error e
  | .ok r :: rest =>
    match collect_areas rest with
    | .error e => .error e
    | .ok areas => .ok (r.toList ++ areas)

/-- Specification: the axis-aligned bounding box of a list of points,
`(min x, min y, max x - min x, max y - min y)`; the empty rectangle for no
points. -/
def bounding_box : List Point → Rect
  | [] => Rect.empty
  | p :: ps =>
    let xmin := ps.foldl (fun m q => min m q.x) p.x
    let xmax := ps.foldl (fun m q => max m q.x) p.x
    let ymin := ps.foldl (fun m q => min m q.y) p.y
    let ymax := ps.foldl (fun m q => max m q.y) p.y
    ⟨xmin, ymin, xmax - xmin, ymax - ymin⟩

/-- Specification: the whole pixel at or below a coordinate. -/
def Float32.floor (a : Float32) : Int := a.units / 2 ^ 149

/-- Specification: the whole pixel at or above a coordinate. -/
def Float32.ceil (a : Float32) : Int := -(-a.units / 2 ^ 149)

/-- Specification: the key point of row `a` is closer than `threshold` on both
axes to the arithmetic mean of the key points of `inliers`.  The mean is the
fraction `sum / n` of exact values, counted in units of `2 ^ -149`; the
comparison `|sum / n - x| < threshold` is made after multiplying both sides by
`n`. -/
def near_mean (threshold : Int) (inliers : List Approach) (a : Approach) : Bool :=
  let n : Int := inliers.length
  let sx := (inliers.map fun r => r.train_keypoint.pt.x.units).sum
  let sy := (inliers.map fun r => r.train_keypoint.pt.y.units).sum
  decide (|sx - n * a.train_keypoint.pt.x.units| < threshold * 2 ^ 149 * n
    ∧ |sy - n * a.train_keypoint.pt.y.units| < threshold * 2 ^ 149 * n)

/-- Specification: `ta` is the area for `key` built from at least one point
that survived the centroid filter with threshold `thr`.  The label is
registered with at least one key point, the matcher found correspondences,
the RANSAC loop returned `inliers`, each of them a key point of the frame, the
inliers that pass the centroid filter are not empty, and `ta` carries `key`
and the rectangle that the accumulation loop builds from their positions. -/
def built_from_survivors (thr : Int) (cv : Externals Mat Hist Desc Score)
    (self : Identify Mat Hist Desc) (mat : Mat) (key : String) (ta : TextArea) : Prop :=
  ∃ (feature : List KeyPoint × Desc) (worst : DMatch) (inliers : List Approach),
    map_find self.m_feature_map key = some feature
      ∧ feature.1 ≠ []
      ∧ max_element (cv.flann_match feature.2 (cv.surf_detect mat).2) = some worst
      ∧ ransac_loop
          (cv.findFundamentalMat
            (((cv.flann_match feature.2 (cv.surf_detect mat).2).foldl
              (approach_step worst.distance feature.1 (cv.surf_detect mat).1) []).map
                fun a => point2f_to_point cv a.query_keypoint.pt)
            (((cv.flann_match feature.2 (cv.surf_detect mat).2).foldl
              (approach_step worst.distance feature.1 (cv.surf_detect mat).1) []).map
                fun a => point2f_to_point cv a.train_keypoint.pt)) 0
          ((cv.flann_match feature.2 (cv.surf_detect mat).2).foldl
            (approach_step worst.distance feature.1 (cv.surf_detect mat).1) []) = .ok inliers
      ∧ (∀ a ∈ inliers, a.train_keypoint ∈ (cv.surf_detect mat).1)
      ∧ centroid_loop thr (avg_point (sum_points inliers) inliers.length) inliers ≠ []
      ∧ ta = ⟨key, bounds_rect (bounds_loop
          ((centroid_loop thr (avg_point (sum_points inliers) inliers.length) inliers).map
            fun a => point2f_to_point cv a.train_keypoint.pt))⟩

/-! ## Concrete collaborators

A family of collaborators on which the definitions can be evaluated: images,
histograms and descriptor matrices are natural numbers, scores are integers. -/

/-- A `saturate_cast<int>` that rounds to the nearest integer, ties to even
(the behaviour of `cvRound` on x86-64). -/
def cvRound (value : Float32) : Int :=
  let q := value.units / 2 ^ 149
  let r := value.units % 2 ^ 149
  if 2 * r < 2 ^ 149 ∨ (2 * r = 2 ^ 149 ∧ q % 2 = 0) then q else q + 1

/-- Collaborators whose matcher returns `found`, whose estimator returns
`status`, whose key point detector returns `scene` and whose OCR engine
returns `blocks`, for every input.  An image decodes to the length of its
path, and the image `0` is the empty one. -/
def sample_cv (scene : List KeyPoint) (found : List DMatch) (status : List Nat)
    (blocks : List TextBlock) : Externals Nat Nat Nat Int where
  imread := fun path => path.length
  empty := fun mat => mat == 0
  cols := fun mat => mat
  rows := fun mat => mat
  roi := fun mat rect => mat + rect.width.toNat
  image_2_hist := fun mat => mat
  compareHist := fun a b => if a = b then 0 else 1
  match_template := fun image templ => ((image : Int) - templ, ⟨3, 4⟩)
  surf_detect := fun mat => (scene, mat)
  flann_match := fun _ _ => found
  findFundamentalMat := fun _ _ => status
  saturate_cast := cvRound
  ocr_lite_detect := fun _ => blocks
  center_zoom := fun r => ⟨r.x + 1, r.y + 1, r.width - 2, r.height - 2⟩
  moved_string := fun _ => ""

/-- Collaborators with no key points, correspondences or text. -/
def plain_cv : Externals Nat Nat Nat Int := sample_cv [] [] [] []

/-- The text block with text `t` whose box has its top-left corner at `(x, y)`
and is `w` wide and `h` high. -/
def block (t : String) (x y w h : Int) : TextBlock :=
  ⟨t, [⟨x, y⟩, ⟨x + w, y⟩, ⟨x + w, y + h⟩, ⟨x, y + h⟩]⟩

/-- Collaborators whose OCR engine detects `blocks`. -/
def ocr_cv (blocks : List TextBlock) : Externals Nat Nat Nat Int := sample_cv [] [] [] blocks

/-- Nine key points of a frame; the first lies in pixel column `0`. -/
def scene_points : List KeyPoint :=
  [⟨⟨0, 10⟩⟩, ⟨⟨30, 40⟩⟩, ⟨⟨20, 20⟩⟩, ⟨⟨25, 15⟩⟩, ⟨⟨10, 30⟩⟩, ⟨⟨15, 35⟩⟩, ⟨⟨5, 12⟩⟩, ⟨⟨28, 38⟩⟩,
    ⟨⟨500, 500⟩⟩]

/-- Nine correspondences; the largest distance is `10`, so the first eight pass
the ratio test (`1 < 10 * 0.4`) and the last does not. -/
def nine_matches : List DMatch :=
  [⟨0, 0, 1⟩, ⟨1, 1, 1⟩, ⟨2, 2, 1⟩, ⟨3, 3, 1⟩, ⟨4, 4, 1⟩, ⟨5, 5, 1⟩, ⟨6, 6, 1⟩, ⟨7, 7, 1⟩,
    ⟨8, 8, 10⟩]

/-- Three correspondences, of which the first two pass the ratio test. -/
def three_matches : List DMatch := [⟨0, 0, 1⟩, ⟨1, 1, 1⟩, ⟨2, 2, 10⟩]

/-- The reference key points stored with the label `"k"`. -/
def nine_keypoints : List KeyPoint :=
  [⟨⟨1, 1⟩⟩, ⟨⟨2, 2⟩⟩, ⟨⟨3, 3⟩⟩, ⟨⟨4, 4⟩⟩, ⟨⟨5, 5⟩⟩, ⟨⟨6, 6⟩⟩, ⟨⟨7, 7⟩⟩, ⟨⟨8, 8⟩⟩, ⟨⟨9, 9⟩⟩]

/-- An estimator that, like `cv::findFundamentalMat`, returns without filling
the status vector when it is given fewer than seven point pairs, and otherwise
flags every pair as an inlier. -/
def seven_point_status (query_points : List Point) : List Nat :=
  if query_points.length < 7 then [] else List.replicate query_points.length 1

/-- Collaborators for the feature matcher: every frame has the key points
`scene_points`; the reference descriptors `7` get `nine_matches`, the
descriptors `8` get `three_matches`, any other gets none; the estimator is
`seven_point_status`. -/
def feature_cv : Externals Nat Nat Nat Int where
  imread := fun path => path.length
  empty := fun mat => mat == 0
  cols := fun mat => mat
  rows := fun mat => mat
  roi := fun mat _ => mat
  image_2_hist := fun mat => mat
  compareHist := fun a b => if a = b then 0 else 1
  match_template := fun image templ => ((image : Int) - templ, ⟨3, 4⟩)
  surf_detect := fun mat => (scene_points, mat)
  flann_match := fun query _ => if query = 7 then nine_matches else if query = 8 then three_matches else []
  findFundamentalMat := fun query_points _ => seven_point_status query_points
  saturate_cast := cvRound
  ocr_lite_detect := fun _ => []
  center_zoom := fun r => r
  moved_string := fun _ => ""

/-- A state whose feature store holds the label `"k"` (nine key points,
descriptors `7`). -/
def one_feature : Identify Nat Nat Nat :=
  ⟨[], [("k", (nine_keypoints, 7))], false, []⟩

/-- A state whose feature store holds the label `"j"` (three key points,
descriptors `8`). -/
def sparse_feature : Identify Nat Nat Nat :=
  ⟨[], [("j", ([⟨⟨1, 1⟩⟩, ⟨⟨2, 2⟩⟩, ⟨⟨3, 3⟩⟩], 8))], false, []⟩

/-- A state whose feature store holds both labels, `"k"` first. -/
def two_features : Identify Nat Nat Nat :=
  ⟨[], [("k", (nine_keypoints, 7)), ("j", ([⟨⟨1, 1⟩⟩, ⟨⟨2, 2⟩⟩, ⟨⟨3, 3⟩⟩], 8))], false, []⟩

/-- A state whose feature store holds both labels, `"j"` first. -/
def sparse_first : Identify Nat Nat Nat :=
  ⟨[], [("j", ([⟨⟨1, 1⟩⟩, ⟨⟨2, 2⟩⟩, ⟨⟨3, 3⟩⟩], 8)), ("k", (nine_keypoints, 7))], false, []⟩

/-- The row of the `ransac_*` vectors for a frame key point at `(x, y)`. -/
def inlier_at (x y : Float32) : Approach := ⟨⟨0, 0, 1⟩, ⟨⟨x, y⟩⟩, ⟨⟨1, 1⟩⟩⟩

/-- A state with no templates, no features and an empty, disabled cache. -/
def fresh : Identify Nat Nat Nat := ⟨[], [], false, []⟩

/-- A state with the template `3` registered as `"b"`, caching enabled and an
empty cache. -/
def one_template : Identify Nat Nat Nat := ⟨[("b", 3)], [], true, []⟩

end Code

end Asst

/-! # Theorems -/

namespace Asst

section Lemmas

variable {V : Type}

theorem map_find_append (m : List (String × V)) (key : String) (value : V) :
    map_find (m ++ [(key, value)]) key = some ((map_find m key).getD value) := by
  induction m with
  | nil => simp [map_find]
  | cons kv rest ih =>
    obtain ⟨k, v⟩ := kv
    by_cases hk : k = key
    · simp [map_find, hk]
    · simpa [map_find, hk] using ih

theorem map_find_emplace_new (m : List (String × V)) (key : String) (value : V)
    (h : map_find m key = none) : map_find (map_emplace m key value) key = some value := by
  simp [map_emplace, h, map_find_append]

theorem map_emplace_old (m : List (String × V)) (key : String) (value old : V)
    (h : map_find m key = some old) : map_emplace m key value = m := by
  simp [map_emplace, h]

end Lemmas

section Cache

variable {Mat Hist Desc Score : Type} [Zero Score] [One Score] [Sub Score] [LE Score]
  [DecidableRel (fun a b : Score => a ≤ b)]

/-- C1. For every frame, threshold and cache state, `find_image` on a label
that has no entry in the template store returns `JustReturn` with score `0` and
the empty rectangle, and the state (the position cache included) is unchanged. -/
theorem find_image_unregistered (cv : Externals Mat Hist Desc Score)
    (self : Identify Mat Hist Desc) (cur : Mat) (templ : String) (templ_threshold : Score)
    (h : map_find self.m_mat_map templ = none) :
    find_image cv self cur templ templ_threshold
      = ((AlgorithmType.JustReturn, 0, Rect.empty), self) := by
  simp [find_image, h]

theorem find_image_unregistered_witness :
    map_find (Identify.mk [("b", 3)] [] true [("b", (⟨3, 4, 3, 3⟩, 6))] : Identify Nat Nat Nat).m_mat_map "a"
        = none
      ∧ find_image plain_cv ⟨[("b", 3)], [], true, [("b", (⟨3, 4, 3, 3⟩, 6))]⟩ 9 "a" 0
        = ((AlgorithmType.JustReturn, 0, Rect.empty),
            ⟨[("b", 3)], [], true, [("b", (⟨3, 4, 3, 3⟩, 6))]⟩) :=
  ⟨by decide, find_image_unregistered plain_cv _ 9 "a" 0 (by decide)⟩

/-- C2. In every state, `set_use_cache(false)` leaves the position cache without
entries, and so does a following `set_use_cache(true)`, which turns caching
on.  The next `find_image` for a registered label then takes the template
matching path: it returns kind `MatchTemplate` (not `CompareHist`) with the
score of `match_template` on the frame and the registered image, and the
rectangle at the matched location with the size of the registered image,
zoomed. -/
theorem find_image_after_cache_reset (cv : Externals Mat Hist Desc Score)
    (self : Identify Mat Hist Desc) (cur : Mat) (templ : String) (templ_threshold : Score)
    (templ_mat : Mat) (h : map_find self.m_mat_map templ = some templ_mat) :
    (set_use_cache self false).m_cache_map = []
      ∧ (set_use_cache self false).m_use_cache = false
      ∧ (set_use_cache (set_use_cache self false) true).m_cache_map = []
      ∧ (set_use_cache (set_use_cache self false) true).m_use_cache = true
      ∧ (set_use_cache (set_use_cache self false) true).m_mat_map = self.m_mat_map
      ∧ (find_image cv (set_use_cache (set_use_cache self false) true) cur templ
          templ_threshold).1
        = (AlgorithmType.MatchTemplate, (cv.match_template cur templ_mat).1,
            cv.center_zoom
              (⟨(cv.match_template cur templ_mat).2.x, (cv.match_template cur templ_mat).2.y,
                cv.cols templ_mat, cv.rows templ_mat⟩ : Rect))
      ∧ (find_image cv (set_use_cache (set_use_cache self false) true) cur templ
          templ_threshold).1.1 ≠ AlgorithmType.CompareHist := by
  have hres : (find_image cv (set_use_cache (set_use_cache self false) true) cur templ
      templ_threshold).1
      = (AlgorithmType.MatchTemplate, (cv.match_template cur templ_mat).1,
          cv.center_zoom
            (⟨(cv.match_template cur templ_mat).2.x, (cv.match_template cur templ_mat).2.y,
              cv.cols templ_mat, cv.rows templ_mat⟩ : Rect)) := by
    simp only [find_image, set_use_cache, if_true, Bool.false_eq_true, if_false, h, map_find,
      cvrect_2_rect]
  refine ⟨by simp [set_use_cache], by simp [set_use_cache], by simp [set_use_cache],
    by simp [set_use_cache], by simp [set_use_cache], hres, ?_⟩
  rw [hres]
  simp

theorem find_image_after_cache_reset_witness :
    map_find (Identify.mk [("b", 3)] [] true [("b", (⟨3, 4, 3, 3⟩, 6))] : Identify Nat Nat Nat).m_mat_map "b"
        = some 3
      ∧ (find_image plain_cv
            (set_use_cache (set_use_cache ⟨[("b", 3)], [], true, [("b", (⟨3, 4, 3, 3⟩, 6))]⟩ false) true)
            9 "b" 0).1
          = (AlgorithmType.MatchTemplate, (plain_cv.match_template 9 3).1,
              plain_cv.center_zoom
                (⟨(plain_cv.match_template 9 3).2.x, (plain_cv.match_template 9 3).2.y,
                  plain_cv.cols 3, plain_cv.rows 3⟩ : Rect))
      ∧ (find_image plain_cv
            (set_use_cache (set_use_cache ⟨[("b", 3)], [], true, [("b", (⟨3, 4, 3, 3⟩, 6))]⟩ false) true)
            9 "b" 0).1
          = (AlgorithmType.MatchTemplate, 6, ⟨4, 5, 1, 1⟩)
      ∧ (find_image plain_cv ⟨[("b", 3)], [], true, [("b", (⟨3, 4, 3, 3⟩, 6))]⟩ 9 "b" 0).1.1
          = AlgorithmType.CompareHist :=
  ⟨by decide,
    (find_image_after_cache_reset plain_cv
      ⟨[("b", 3)], [], true, [("b", (⟨3, 4, 3, 3⟩, 6))]⟩ 9 "b" 0 3 (by decide)).2.2.2.2.2.1,
    by decide, by decide⟩

/-- C3. With caching enabled, no cache entry for `templ` and `templ` registered,
`find_image` returns kind `MatchTemplate`, the score of `match_template`, and
the raw match rectangle (matched location, size of the registered image)
zoomed.  When the score reaches `templ_threshold` the call appends to the cache
the entry for `templ` made of the raw rectangle and the histogram of the frame
inside it, and the next `find_image` for `templ`, on any frame, returns kind
`CompareHist` with one minus the histogram distance and the same zoomed
rectangle, and changes nothing.  When the score does not reach the threshold
the state is unchanged and the next call is again a template match. -/
theorem find_image_fills_cache (cv : Externals Mat Hist Desc Score)
    (self : Identify Mat Hist Desc) (cur next : Mat) (templ : String)
    (templ_threshold next_threshold : Score) (templ_mat : Mat)
    (hcache : self.m_use_cache = true)
    (hmiss : map_find self.m_cache_map templ = none)
    (hreg : map_find self.m_mat_map templ = some templ_mat) :
    let value := (cv.match_template cur templ_mat).1
    let point := (cv.match_template cur templ_mat).2
    let raw_rect : CvRect := ⟨point.x, point.y, cv.cols templ_mat, cv.rows templ_mat⟩
    let zoomed : Rect := cv.center_zoom ⟨point.x, point.y, cv.cols templ_mat, cv.rows templ_mat⟩
    let first := find_image cv self cur templ templ_threshold
    let second := find_image cv first.2 next templ next_threshold
    first.1 = (AlgorithmType.MatchTemplate, value, zoomed)
      ∧ (templ_threshold ≤ value →
          first.2 = Identify.mk self.m_mat_map self.m_feature_map true
              (self.m_cache_map ++ [(templ, (raw_rect, cv.image_2_hist (cv.roi cur raw_rect)))])
            ∧ map_find first.2.m_cache_map templ
              = some (raw_rect, cv.image_2_hist (cv.roi cur raw_rect))
            ∧ second.1 = (AlgorithmType.CompareHist,
                1 - cv.compareHist (cv.image_2_hist (cv.roi next raw_rect))
                  (cv.image_2_hist (cv.roi cur raw_rect)),
                zoomed)
            ∧ second.1.1 = AlgorithmType.CompareHist
            ∧ second.1.2.2 = first.1.2.2
            ∧ second.2 = first.2)
      ∧ (¬ templ_threshold ≤ value →
          first.2 = self
            ∧ second.1 = (AlgorithmType.MatchTemplate, (cv.match_template next templ_mat).1,
                cv.center_zoom
                  ⟨(cv.match_template next templ_mat).2.x, (cv.match_template next templ_mat).2.y,
                    cv.cols templ_mat, cv.rows templ_mat⟩)
            ∧ second.1.1 = AlgorithmType.MatchTemplate) := by
  intro value point raw_rect zoomed first second
  have hfirst : first = ((AlgorithmType.MatchTemplate, value, zoomed),
      if templ_threshold ≤ value then
        Identify.mk self.m_mat_map self.m_feature_map self.m_use_cache
          (map_emplace self.m_cache_map templ (raw_rect, cv.image_2_hist (cv.roi cur raw_rect)))
      else self) := by
    simp only [first, find_image, hreg, hcache, hmiss, if_true, true_and]
    rfl
  refine ⟨by rw [hfirst], ?_, ?_⟩
  · intro hge
    have hstate : first.2 = Identify.mk self.m_mat_map self.m_feature_map true
        (self.m_cache_map ++ [(templ, (raw_rect, cv.image_2_hist (cv.roi cur raw_rect)))]) := by
      rw [hfirst]; simp [hge, map_emplace, hmiss, hcache]
    have hfind : map_find first.2.m_cache_map templ
        = some (raw_rect, cv.image_2_hist (cv.roi cur raw_rect)) := by
      rw [hstate]
      have := map_find_emplace_new self.m_cache_map templ
        (raw_rect, cv.image_2_hist (cv.roi cur raw_rect)) hmiss
      simpa [map_emplace, hmiss] using this
    have hreg2 : map_find first.2.m_mat_map templ = some templ_mat := by
      rw [hstate]; exact hreg
    have hcache2 : first.2.m_use_cache = true := by
      rw [hstate]
    have hsecond : second = ((AlgorithmType.CompareHist,
        1 - cv.compareHist (cv.image_2_hist (cv.roi next raw_rect))
          (cv.image_2_hist (cv.roi cur raw_rect)),
        zoomed), first.2) := by
      simp only [second, find_image, hreg2, hcache2, hfind, if_true]
      rfl
    refine ⟨hstate, hfind, ?_, ?_, ?_, ?_⟩
    · rw [hsecond]
    · rw [hsecond]
    · rw [hsecond, hfirst]
    · rw [hsecond]
  · intro hlt
    have hstate : first.2 = self := by
      rw [hfirst]; simp [hlt]
    have hsecond : second.1 = (AlgorithmType.MatchTemplate, (cv.match_template next templ_mat).1,
        cv.center_zoom
          ⟨(cv.match_template next templ_mat).2.x, (cv.match_template next templ_mat).2.y,
            cv.cols templ_mat, cv.rows templ_mat⟩) := by
      simp only [second, hstate, find_image, hreg, hcache, hmiss, if_true]
      rfl
    exact ⟨hstate, hsecond, by rw [hsecond]⟩

theorem find_image_fills_cache_witness :
    (one_template.m_use_cache = true
        ∧ map_find one_template.m_cache_map "b" = none
        ∧ map_find one_template.m_mat_map "b" = some 3
        ∧ (5 : Int) ≤ (plain_cv.match_template 9 3).1)
      ∧ (find_image plain_cv one_template 9 "b" 5).1.1 = AlgorithmType.MatchTemplate
      ∧ (find_image plain_cv (find_image plain_cv one_template 9 "b" 5).2 9 "b" 5).1.1
          = AlgorithmType.CompareHist
      ∧ (find_image plain_cv (find_image plain_cv one_template 9 "b" 5).2 9 "b" 5).1.2.2
          = (find_image plain_cv one_template 9 "b" 5).1.2.2
      ∧ (find_image plain_cv one_template 9 "b" 5).1
          = (AlgorithmType.MatchTemplate, 6, ⟨4, 5, 1, 1⟩)
      ∧ (find_image plain_cv one_template 9 "b" 5).2.m_cache_map
          = [("b", (⟨3, 4, 3, 3⟩, 12))]
      ∧ (find_image plain_cv (find_image plain_cv one_template 9 "b" 5).2 2 "b" 5).1
          = (AlgorithmType.CompareHist, 0, ⟨4, 5, 1, 1⟩) :=
  ⟨⟨by decide, by decide, by decide, by decide⟩,
    congrArg (fun r => r.1)
      (find_image_fills_cache plain_cv one_template 9 9 "b" 5 5 3 (by decide) (by decide)
        (by decide)).1,
    ((find_image_fills_cache plain_cv one_template 9 9 "b" 5 5 3 (by decide) (by decide)
        (by decide)).2.1 (by decide)).2.2.2.1,
    ((find_image_fills_cache plain_cv one_template 9 9 "b" 5 5 3 (by decide) (by decide)
        (by decide)).2.1 (by decide)).2.2.2.2.1,
    by decide, by decide, by decide⟩

end Cache

section Text

variable {Mat Hist Desc Score : Type}

theorem find_text_labels_moved (cv : Externals Mat Hist Desc Score) (ts : List String)
    (res : TextArea) (dst : List TextArea)
    (hmoved : ∀ text, cv.moved_string text = "") (hempty : "" ∉ ts) :
    find_text_labels cv ts (moved_from cv res) dst = (moved_from cv res, dst) := by
  induction ts with
  | nil => rfl
  | cons t rest ih =>
    have ht : ¬ "" = t := fun h => hempty (by simp [h])
    have hrest : "" ∉ rest := fun h => hempty (List.mem_cons_of_mem _ h)
    have hres : (moved_from cv res).text = "" := hmoved res.text
    simp only [find_text_labels, hres, ht, if_false]
    exact ih hrest

theorem find_text_labels_once (cv : Externals Mat Hist Desc Score) (ts : List String)
    (res : TextArea) (dst : List TextArea)
    (hmoved : ∀ text, cv.moved_string text = "") (hempty : "" ∉ ts) :
    (find_text_labels cv ts res dst).2 = if res.text ∈ ts then dst ++ [res] else dst := by
  induction ts with
  | nil => simp [find_text_labels]
  | cons t rest ih =>
    have hrest : "" ∉ rest := fun h => hempty (List.mem_cons_of_mem _ h)
    by_cases ht : res.text = t
    · simp [find_text_labels, ht, find_text_labels_moved cv rest res _ hmoved hrest]
    · have hne : ¬ t = res.text := fun h => ht h.symm
      simp only [find_text_labels, ht, if_false, List.mem_cons, false_or]
      exact ih hrest

theorem find_text_areas_filter (cv : Externals Mat Hist Desc Score) (texts : List String)
    (detected dst : List TextArea)
    (hmoved : ∀ text, cv.moved_string text = "") (hempty : "" ∉ texts) :
    find_text_areas cv texts detected dst
      = dst ++ detected.filter (fun res => decide (res.text ∈ texts)) := by
  induction detected generalizing dst with
  | nil => simp [find_text_areas]
  | cons res rest ih =>
    rw [find_text_areas, ih, find_text_labels_once cv texts res dst hmoved hempty]
    by_cases hm : res.text ∈ texts
    · simp [hm, List.filter_cons]
    · simp [hm, List.filter_cons]

/-- When a moved-from string is empty and the empty string is not among the
labels, both collection overloads of `find_text` return exactly the detected
areas whose text is one of the labels, in detection order, each once. -/
theorem find_text_filter (cv : Externals Mat Hist Desc Score) (mat : Mat) (texts : List String)
    (hmoved : ∀ text, cv.moved_string text = "") (hempty : "" ∉ texts) :
    find_text_vector cv mat texts
        = (ocr_detect cv mat).filter (fun res => decide (res.text ∈ texts))
      ∧ find_text_unordered_set cv mat texts
        = (ocr_detect cv mat).filter (fun res => decide (res.text ∈ texts)) := by
  constructor <;>
    simp [find_text_vector, find_text_unordered_set, find_text_areas_filter cv _ _ _ hmoved hempty]

/-- Whatever text a moved-from string is left with, there are labels for which
one detected area is emitted twice: its own text followed by the text it holds
after the move. -/
theorem find_text_areas_twice (cv : Externals Mat Hist Desc Score) (res : TextArea) :
    find_text_areas cv [res.text, cv.moved_string res.text] [res] []
      = [res, moved_from cv res] := by
  simp [find_text_areas, find_text_labels, moved_from]

/-- The example of the specification: `"A"`, `"B"`, `"C"` are detected and the
labels are `"A"` and `"B"`, once or repeated. -/
theorem find_text_example :
    find_text_unordered_set (ocr_cv [block "A" 10 10 30 12, block "B" 60 10 30 12, block "C" 110 10 30 12])
        0 ["A", "B"] = [⟨"A", ⟨10, 10, 30, 12⟩⟩, ⟨"B", ⟨60, 10, 30, 12⟩⟩]
      ∧ find_text_vector (ocr_cv [block "A" 10 10 30 12, block "B" 60 10 30 12, block "C" 110 10 30 12])
        0 ["B", "A", "A", "B"] = [⟨"A", ⟨10, 10, 30, 12⟩⟩, ⟨"B", ⟨60, 10, 30, 12⟩⟩] := by
  decide

/-- C4. The code at labels `"A"`, `""`: the one detected area `"A"` is emitted
for the label `"A"` and, because `res` has been moved from and its text is then
empty, a second time for the label `""`, with the empty text; the areas whose
text is one of the labels are just the first of the two. -/
theorem find_text_emits_moved_from_area :
    find_text_vector (ocr_cv [block "A" 10 10 30 12]) 0 ["A", ""]
        = [⟨"A", ⟨10, 10, 30, 12⟩⟩, ⟨"", ⟨10, 10, 30, 12⟩⟩]
      ∧ find_text_unordered_set (ocr_cv [block "A" 10 10 30 12]) 0 ["A", ""]
        = [⟨"A", ⟨10, 10, 30, 12⟩⟩, ⟨"", ⟨10, 10, 30, 12⟩⟩]
      ∧ (ocr_detect (ocr_cv [block "A" 10 10 30 12]) 0).filter
          (fun res => decide (res.text ∈ ["A", ""])) = [⟨"A", ⟨10, 10, 30, 12⟩⟩] := by
  decide

end Text

section Store

variable {V Mat Hist Desc Score : Type}

theorem map_count_eq_zero (m : List (String × V)) (key : String) (h : map_find m key = none) :
    map_count m key = 0 := by
  induction m with
  | nil => rfl
  | cons kv rest ih =>
    obtain ⟨k, v⟩ := kv
    by_cases hk : k = key
    · simp [map_find, hk] at h
    · simp only [map_find, hk, if_false] at h
      simpa [map_count, List.filter_cons, hk] using ih h

theorem map_count_pos (m : List (String × V)) (key : String) (old : V)
    (h : map_find m key = some old) : 0 < map_count m key := by
  induction m with
  | nil => simp [map_find] at h
  | cons kv rest ih =>
    obtain ⟨k, v⟩ := kv
    by_cases hk : k = key
    · simp [map_count, List.filter_cons, hk]
    · simp only [map_find, hk, if_false] at h
      simpa [map_count, List.filter_cons, hk] using ih h

theorem map_count_emplace (m : List (String × V)) (key : String) (value : V)
    (h : map_count m key ≤ 1) : map_count (map_emplace m key value) key = 1 := by
  cases hf : map_find m key with
  | none =>
    have h0 := map_count_eq_zero m key hf
    simp only [map_count] at h0
    simp [map_emplace, hf, map_count, List.filter_append, h0]
  | some old =>
    have hp := map_count_pos m key old hf
    simp only [map_emplace, hf]
    omega

theorem map_find_emplace (m : List (String × V)) (key : String) (value : V) :
    map_find (map_emplace m key value) key = some ((map_find m key).getD value) := by
  cases hf : map_find m key with
  | none => simpa using map_find_emplace_new m key value hf
  | some old => simp [map_emplace, hf]

/-- C5, the claim at an input: from the empty store, `add_image("a", "x")` and
then `add_image("a", "xy")` both succeed, and the store maps `"a"` to the
image of the first call, not to the image of the second. -/
theorem add_image_does_not_replace :
    (add_image plain_cv fresh "a" "x").1 = true
      ∧ (add_image plain_cv (add_image plain_cv fresh "a" "x").2 "a" "xy").1 = true
      ∧ map_find (add_image plain_cv (add_image plain_cv fresh "a" "x").2 "a" "xy").2.m_mat_map "a"
          = some (plain_cv.imread "x")
      ∧ map_find (add_image plain_cv (add_image plain_cv fresh "a" "x").2 "a" "xy").2.m_mat_map "a"
          ≠ some (plain_cv.imread "xy") := by
  decide

/-- C5, amended. For every label and every two images that both decode,
`add_image(label, image1)` and then `add_image(label, image2)` both return
true, the second call leaves the store as the first call left it, and the store
maps the label to the image it already held or, if it held none, to `image1`:
re-registering a label keeps the stored image.  A store with at most one entry
for the label ends with exactly one. -/
theorem add_image_keeps_first (cv : Externals Mat Hist Desc Score) (self : Identify Mat Hist Desc)
    (name path1 path2 : String)
    (h1 : cv.empty (cv.imread path1) = false) (h2 : cv.empty (cv.imread path2) = false)
    (hunique : map_count self.m_mat_map name ≤ 1) :
    (add_image cv self name path1).1 = true
      ∧ (add_image cv (add_image cv self name path1).2 name path2).1 = true
      ∧ (add_image cv (add_image cv self name path1).2 name path2).2 = (add_image cv self name path1).2
      ∧ map_find (add_image cv (add_image cv self name path1).2 name path2).2.m_mat_map name
          = some ((map_find self.m_mat_map name).getD (cv.imread path1))
      ∧ map_count (add_image cv (add_image cv self name path1).2 name path2).2.m_mat_map name = 1 := by
  have hfirst : add_image cv self name path1
      = (true, { self with m_mat_map := map_emplace self.m_mat_map name (cv.imread path1) }) := by
    simp [add_image, h1]
  have hfound := map_find_emplace self.m_mat_map name (cv.imread path1)
  have hsecond : add_image cv (add_image cv self name path1).2 name path2
      = (true, (add_image cv self name path1).2) := by
    rw [hfirst]
    simp only [add_image, h2, Bool.false_eq_true, if_false]
    rw [map_emplace_old _ name (cv.imread path2) _ hfound]
  refine ⟨by rw [hfirst], by rw [hsecond], by rw [hsecond], ?_, ?_⟩
  · rw [hsecond, hfirst]; exact hfound
  · rw [hsecond, hfirst]; exact map_count_emplace _ _ _ hunique

theorem add_image_keeps_first_witness :
    (plain_cv.empty (plain_cv.imread "x") = false ∧ plain_cv.empty (plain_cv.imread "xy") = false
        ∧ map_count fresh.m_mat_map "a" ≤ 1)
      ∧ map_find (add_image plain_cv (add_image plain_cv fresh "a" "x").2 "a" "xy").2.m_mat_map "a"
          = some ((map_find fresh.m_mat_map "a").getD (plain_cv.imread "x")) :=
  ⟨⟨by decide, by decide, by decide⟩,
    (add_image_keeps_first plain_cv fresh "a" "x" "xy" (by decide) (by decide)
      (by decide)).2.2.2.1⟩

end Store

section Feature

variable {V Mat Hist Desc Score : Type}

/-- The boundary of the acceptance test at 100 query key points: 7 surviving
points are rejected, 8 are accepted. -/
theorem size_accepted_boundary :
    size_accepted 7 100 = false ∧ size_accepted 8 100 = true := by
  decide

theorem excess_bits_small (fuel N : Nat) (h : N < 2 ^ 53) : excess_bits fuel N = 0 := by
  cases fuel with
  | zero => rfl
  | succ fuel => rw [excess_bits, if_pos h]

theorem excess_bits_le (fuel N : Nat) (h : 2 ^ 53 ≤ N) :
    2 ^ excess_bits fuel N * 2 ^ 52 ≤ N := by
  induction fuel generalizing N with
  | zero => simp only [excess_bits, pow_zero, one_mul]; omega
  | succ fuel ih =>
    have hnot : ¬ N < 2 ^ 53 := by omega
    rw [excess_bits, if_neg hnot, pow_succ]
    by_cases hhalf : 2 ^ 53 ≤ N / 2
    · have := ih (N / 2) hhalf
      generalize 2 ^ excess_bits fuel (N / 2) = E at *
      omega
    · rw [excess_bits_small fuel (N / 2) (by omega)]
      omega

theorem round_small (N : Nat) (h : N < 2 ^ 53) : round_binary64 N = N := by
  simp [round_binary64, excess_bits_small 128 N h, Nat.mod_one]

theorem round_le_multiple (N K : Nat) (hK : N ≤ K) (hdvd : 2 ^ excess_bits 128 N ∣ K) :
    round_binary64 N ≤ K := by
  obtain ⟨m, rfl⟩ := hdvd
  have hpos : 0 < 2 ^ excess_bits 128 N := Nat.pos_pow_of_pos _ (by norm_num)
  have hdm := Nat.div_add_mod N (2 ^ excess_bits 128 N)
  have hmod := Nat.mod_lt N hpos
  simp only [round_binary64]
  generalize 2 ^ excess_bits 128 N = E at *
  generalize N / E = q at *
  generalize N % E = r at *
  have hqm : q ≤ m := by
    by_contra hlt
    have h1 : m + 1 ≤ q := by omega
    have h2 : E * (m + 1) ≤ E * q := Nat.mul_le_mul_left E h1
    have h3 : E * (m + 1) = E * m + E := by ring
    omega
  split
  · calc q * E ≤ m * E := Nat.mul_le_mul_right E hqm
      _ = E * m := Nat.mul_comm _ _
  · rename_i hnot
    have hr0 : 0 < r := by
      by_contra h0
      have : r = 0 := by omega
      apply hnot; left; omega
    have hqm1 : q + 1 ≤ m := by
      by_contra hlt
      have : m = q := by omega
      subst this
      omega
    calc (q + 1) * E ≤ m * E := Nat.mul_le_mul_right E hqm1
      _ = E * m := Nat.mul_comm _ _

theorem round_lower (N : Nat) :
    2 * N ≤ 2 * round_binary64 N + 2 ^ excess_bits 128 N := by
  have hpos : 0 < 2 ^ excess_bits 128 N := Nat.pos_pow_of_pos _ (by norm_num)
  have hdm := Nat.div_add_mod N (2 ^ excess_bits 128 N)
  have hmod := Nat.mod_lt N hpos
  simp only [round_binary64]
  generalize 2 ^ excess_bits 128 N = E at *
  generalize N / E = q at *
  generalize N % E = r at *
  split
  · rename_i h
    have : q * E = E * q := Nat.mul_comm _ _
    rcases h with h | ⟨h, _⟩ <;> omega
  · have : (q + 1) * E = E * q + E := by ring
    omega

/-- The acceptance test in binary64 arithmetic agrees with the exact comparison
for every query size below `2 ^ 50` (and good size below `2 ^ 53`). -/
theorem size_accepted_binary64_eq (good_size query_size : Nat)
    (hs : good_size < 2 ^ 53) (hn : query_size < 2 ^ 50) :
    size_accepted_binary64 good_size query_size = size_accepted good_size query_size := by
  have hM : query_size * 5404319552844595 < 2 ^ 103 := by omega
  have hE := excess_bits_le 128 (query_size * 5404319552844595)
  have hsmall := round_small (query_size * 5404319552844595)
  have hzero := excess_bits_small 128 (query_size * 5404319552844595)
  have he : excess_bits 128 (query_size * 5404319552844595) ≤ 56 := by
    by_cases hbig : 2 ^ 53 ≤ query_size * 5404319552844595
    · have h1 := hE hbig
      by_contra hgt
      have h2 : 2 ^ 57 ≤ 2 ^ excess_bits 128 (query_size * 5404319552844595) :=
        Nat.pow_le_pow_right (by norm_num) (by omega)
      have h3 : 2 ^ 57 * 2 ^ 52 ≤ 2 ^ excess_bits 128 (query_size * 5404319552844595) * 2 ^ 52 :=
        Nat.mul_le_mul_right _ h2
      omega
    · rw [hzero (by omega)]; omega
  have hlow := round_lower (query_size * 5404319552844595)
  have hdvd : 2 ^ excess_bits 128 (query_size * 5404319552844595) ∣ good_size * 2 ^ 56 :=
    Dvd.dvd.mul_left (pow_dvd_pow 2 he) _
  have hup := fun h => round_le_multiple (query_size * 5404319552844595) (good_size * 2 ^ 56) h hdvd
  simp only [size_accepted_binary64, size_accepted, MatchSizeRatioThreshold_binary64,
    MatchSizeRatioThreshold_den, MatchSizeRatioThreshold_num, round_small good_size hs,
    round_small query_size (by omega)]
  generalize 2 ^ excess_bits 128 (query_size * 5404319552844595) = E at *
  generalize round_binary64 (query_size * 5404319552844595) = R at *
  rw [decide_eq_decide]
  constructor
  · intro hR
    by_cases hbig : 2 ^ 53 ≤ query_size * 5404319552844595
    · have := hE hbig
      omega
    · have := hsmall (by omega)
      omega
  · intro hge
    have := hup (by omega)
    omega

/-- The boundary at 100 query key points, in binary64 arithmetic. -/
theorem size_accepted_binary64_boundary :
    size_accepted_binary64 7 100 = false ∧ size_accepted_binary64 8 100 = true
      ∧ size_accepted_binary64 3 40 = true ∧ size_accepted_binary64 2 40 = false := by
  decide

set_option maxRecDepth 100000 in
/-- C7. The code on eight surviving points, the first of them `(0, 10)`:
`feature_match` accepts and returns the rectangle `(5, 10, 25, 30)`, while the
bounding box of the eight points is `(0, 10, 30, 30)`.  The running bound
`left` is `0` after the first point, which the loop reads as "not set yet", so
the next point overwrites it. -/
theorem feature_match_zero_column :
    feature_match feature_cv one_feature 0 "k" = .ok (some ⟨"k", ⟨5, 10, 25, 30⟩⟩)
      ∧ bounds_rect (bounds_loop
          [⟨0, 10⟩, ⟨30, 40⟩, ⟨20, 20⟩, ⟨25, 15⟩, ⟨10, 30⟩, ⟨15, 35⟩, ⟨5, 12⟩, ⟨28, 38⟩])
        = ⟨5, 10, 25, 30⟩
      ∧ bounding_box [⟨0, 10⟩, ⟨30, 40⟩, ⟨20, 20⟩, ⟨25, 15⟩, ⟨10, 30⟩, ⟨15, 35⟩, ⟨5, 12⟩, ⟨28, 38⟩]
        = ⟨0, 10, 30, 30⟩ := by
  decide

set_option maxRecDepth 100000 in
/-- C8. The code when two correspondences pass the ratio test and the
estimator, given fewer than seven point pairs, leaves the status vector empty:
`ransac_status.at(0)` raises `out_of_range`, in `feature_match` and in
`feature_match_all`; neither returns none or an empty result.  A status
vector that is one flag short raises as well. -/
theorem feature_match_short_status_raises :
    feature_match feature_cv sparse_feature 0 "j" = .error Exception.out_of_range
      ∧ feature_match_all feature_cv sparse_feature 0 = .error Exception.out_of_range
      ∧ feature_match (sample_cv scene_points three_matches [1] []) sparse_feature 0 "j"
        = .error Exception.out_of_range := by
  decide

theorem map_find_of_mem (m : List (String × V)) (hunique : (m.map Prod.fst).Nodup)
    (entry : String × V) (hmem : entry ∈ m) : map_find m entry.1 = some entry.2 := by
  induction m with
  | nil => cases hmem
  | cons kv rest ih =>
    obtain ⟨k, v⟩ := kv
    rw [List.map_cons, List.nodup_cons] at hunique
    rcases List.mem_cons.mp hmem with heq | hrest
    · subst heq
      simp [map_find]
    · have hk : k ≠ entry.1 := by
        intro hk
        apply hunique.1
        rw [hk]
        exact List.mem_map.mpr ⟨entry, hrest, rfl⟩
      simp only [map_find, hk, if_false]
      exact ih hunique.2 hrest

theorem feature_match_all_step_eq (cv : Externals Mat Hist Desc Score)
    (self : Identify Mat Hist Desc) (mat : Mat) (matched : List TextArea)
    (entry : String × (List KeyPoint × Desc))
    (hfind : map_find self.m_feature_map entry.1 = some entry.2) :
    feature_match_all_step cv (cv.surf_detect mat).1 (cv.surf_detect mat).2 matched entry
      = match feature_match_with 300 cv self mat entry.1 with
        | .error e => .error e
        | .ok r => .ok (matched ++ r.toList) := by
  obtain ⟨key, query_keypoints, query_mat_vector⟩ := entry
  simp only [feature_match_all_step, feature_match_with, hfind]
  cases max_element (cv.flann_match query_mat_vector (cv.surf_detect mat).2) with
  | none => simp
  | some worst =>
    simp only []
    cases ransac_loop _ 0 _ with
    | error e => rfl
    | ok inliers =>
      simp only []
      by_cases hz : inliers.length = 0
      · simp [hz]
      · simp only [hz, if_false, accept_area, List.length_map]
        split <;> simp

theorem feature_match_all_loop_eq (cv : Externals Mat Hist Desc Score)
    (self : Identify Mat Hist Desc) (mat : Mat)
    (entries : List (String × (List KeyPoint × Desc)))
    (hfind : ∀ entry ∈ entries, map_find self.m_feature_map entry.1 = some entry.2)
    (matched : List TextArea) :
    feature_match_all_loop cv (cv.surf_detect mat).1 (cv.surf_detect mat).2 entries matched
      = match collect_areas (entries.map fun entry => feature_match_with 300 cv self mat entry.1) with
        | .error e => .error e
        | .ok areas => .ok (matched ++ areas) := by
  induction entries generalizing matched with
  | nil => simp [feature_match_all_loop, collect_areas]
  | cons entry rest ih =>
    have hrest : ∀ e ∈ rest, map_find self.m_feature_map e.1 = some e.2 :=
      fun e he => hfind e (List.mem_cons_of_mem _ he)
    rw [feature_match_all_loop,
      feature_match_all_step_eq cv self mat matched entry (hfind entry (List.mem_cons_self _ _)),
      List.map_cons]
    cases hfm : feature_match_with 300 cv self mat entry.1 with
    | error e => simp [collect_areas]
    | ok r =>
      simp only [collect_areas]
      rw [ih hrest]
      cases collect_areas (rest.map fun entry => feature_match_with 300 cv self mat entry.1) with
      | error e => rfl
      | ok areas => simp

theorem collect_areas_mem (results : List (Except Exception (Option TextArea)))
    (areas : List TextArea) (h : collect_areas results = .ok areas) (ta : TextArea) :
    ta ∈ areas ↔ .ok (some ta) ∈ results := by
  induction results generalizing areas with
  | nil =>
    simp only [collect_areas, Except.ok.injEq] at h
    subst h
    simp
  | cons r rest ih =>
    cases r with
    | error e => simp [collect_areas] at h
    | ok o =>
      simp only [collect_areas] at h
      cases hc : collect_areas rest with
      | error e => simp [hc] at h
      | ok tail =>
        simp only [hc, Except.ok.injEq] at h
        subst h
        have := ih tail hc
        cases o with
        | none => simp [this]
        | some a => simp [this]

theorem feature_match_with_text (thr : Int) (cv : Externals Mat Hist Desc Score)
    (self : Identify Mat Hist Desc) (mat : Mat) (key : String) (ta : TextArea)
    (h : feature_match_with thr cv self mat key = .ok (some ta)) : ta.text = key := by
  simp only [feature_match_with] at h
  split at h
  · cases h
  · split at h
    · cases h
    · split at h
      · cases h
      · split at h
        · cases h
        · simp only [accept_area, Except.ok.injEq] at h
          split at h
          · cases h; rfl
          · cases h

theorem collect_areas_labels (thr : Int) (cv : Externals Mat Hist Desc Score)
    (self : Identify Mat Hist Desc) (mat : Mat)
    (entries : List (String × (List KeyPoint × Desc))) (areas : List TextArea)
    (h : collect_areas (entries.map fun entry => feature_match_with thr cv self mat entry.1)
      = .ok areas) :
    (areas.map fun ta => ta.text).Sublist (entries.map Prod.fst) := by
  induction entries generalizing areas with
  | nil =>
    simp only [List.map_nil, collect_areas, Except.ok.injEq] at h
    subst h
    simp
  | cons entry rest ih =>
    rw [List.map_cons] at h
    cases hfm : feature_match_with thr cv self mat entry.1 with
    | error e => simp [hfm, collect_areas] at h
    | ok o =>
      simp only [hfm, collect_areas] at h
      cases hc : collect_areas (rest.map fun entry => feature_match_with thr cv self mat entry.1) with
      | error e => simp [hc] at h
      | ok tail =>
        simp only [hc, Except.ok.injEq] at h
        subst h
        have hsub := ih tail hc
        cases o with
        | none => simpa using hsub.cons entry.1
        | some a =>
          have ht := feature_match_with_text thr cv self mat entry.1 a hfm
          simpa [ht] using hsub.cons₂ entry.1

/-- Refinement of the two feature paths.  For every frame and every feature
store with one entry per label:
`feature_match` is the per-label pipeline with distance threshold 200, and
`feature_match_all` is that pipeline with threshold 300 run for the labels of
the store in turn.  Its result is the list, in store order, of the `TextArea`
values the pipeline returns, so a `TextArea` is in the result exactly when the
pipeline returns it for some label, no label occurs twice, and a rejected
label contributes nothing; if the pipeline raises for a label, so does
`feature_match_all`. -/
theorem feature_match_all_refines (cv : Externals Mat Hist Desc Score)
    (self : Identify Mat Hist Desc) (mat : Mat)
    (hunique : (self.m_feature_map.map Prod.fst).Nodup) :
    (∀ key, feature_match cv self mat key = feature_match_with 200 cv self mat key)
      ∧ feature_match_all cv self mat
          = collect_areas (self.m_feature_map.map fun entry => feature_match_with 300 cv self mat entry.1)
      ∧ ∀ areas, feature_match_all cv self mat = .ok areas →
          (∀ ta, ta ∈ areas ↔
            ∃ entry ∈ self.m_feature_map, feature_match_with 300 cv self mat entry.1 = .ok (some ta))
          ∧ (areas.map fun ta => ta.text).Nodup := by
  have hall : feature_match_all cv self mat
      = collect_areas (self.m_feature_map.map fun entry => feature_match_with 300 cv self mat entry.1) := by
    have hloop := feature_match_all_loop_eq cv self mat self.m_feature_map
      (fun entry hmem => map_find_of_mem _ hunique entry hmem) []
    simp only [feature_match_all]
    rw [hloop]
    cases collect_areas (self.m_feature_map.map fun entry => feature_match_with 300 cv self mat entry.1) with
    | error e => rfl
    | ok areas => simp
  refine ⟨?_, hall, ?_⟩
  · intro key
    simp only [feature_match, feature_match_with, feature_match_tail]
    cases map_find self.m_feature_map key with
    | none => rfl
    | some feature =>
      simp only []
      cases max_element (cv.flann_match feature.2 (cv.surf_detect mat).2) with
      | none => rfl
      | some worst =>
        simp only []
        cases ransac_loop _ 0 _ with
        | error e => rfl
        | ok inliers =>
          simp only []
          by_cases hz : inliers.length = 0 <;> simp [hz]
  · intro areas hok
    rw [hall] at hok
    refine ⟨fun ta => ?_, ?_⟩
    · rw [collect_areas_mem _ areas hok ta, List.mem_map]
    · exact (collect_areas_labels 300 cv self mat _ areas hok).nodup hunique

theorem feature_match_all_refines_witness :
    (two_features.m_feature_map.map Prod.fst).Nodup
      ∧ feature_match_all feature_cv two_features 0
          = collect_areas
              (two_features.m_feature_map.map fun entry => feature_match_with 300 feature_cv two_features 0 entry.1) :=
  ⟨by decide, (feature_match_all_refines feature_cv two_features 0 (by decide)).2.1⟩

set_option maxRecDepth 100000 in
/-- C9. The code on a store with the labels `"k"` and `"j"`: the pipeline with
threshold 300 returns a `TextArea` for `"k"`, and `feature_match_all` returns
it when `"k"` is the only label; with `"j"` in the store, for which the
estimator leaves the status vector empty, `feature_match_all` raises
`out_of_range` and returns no `TextArea` at all. -/
theorem feature_match_all_aborts :
    feature_match_with 300 feature_cv two_features 0 "k" = .ok (some ⟨"k", ⟨5, 10, 25, 30⟩⟩)
      ∧ feature_match_with 300 feature_cv two_features 0 "j" = .error Exception.out_of_range
      ∧ feature_match_all feature_cv one_feature 0 = .ok [⟨"k", ⟨5, 10, 25, 30⟩⟩]
      ∧ feature_match_all feature_cv two_features 0 = .error Exception.out_of_range := by
  decide

end Feature

section Centroid

theorem excess_bits_binary32_small (fuel N : Nat) (h : N < 2 ^ 24) :
    excess_bits_binary32 fuel N = 0 := by
  cases fuel with
  | zero => rfl
  | succ fuel => rw [excess_bits_binary32, if_pos h]

theorem excess_bits_binary32_bound (fuel N k : Nat) (h : N < 2 ^ (24 + k)) :
    excess_bits_binary32 fuel N ≤ k := by
  induction fuel generalizing N k with
  | zero => simp [excess_bits_binary32]
  | succ fuel ih =>
    by_cases hsmall : N < 2 ^ 24
    · rw [excess_bits_binary32, if_pos hsmall]; omega
    · rw [excess_bits_binary32, if_neg hsmall]
      cases k with
      | zero => exact absurd h hsmall
      | succ k =>
        have hhalf : N / 2 < 2 ^ (24 + k) := by
          have : 2 ^ (24 + (k + 1)) = 2 * 2 ^ (24 + k) := by
            rw [← Nat.add_assoc, pow_succ]; ring
          omega
        have := ih (N / 2) k hhalf
        omega

theorem excess_bits_binary32_ge (k fuel N : Nat) (hk : k ≤ fuel)
    (h : k = 0 ∨ 2 ^ (23 + k) ≤ N) : k ≤ excess_bits_binary32 fuel N := by
  induction k generalizing fuel N with
  | zero => omega
  | succ k ih =>
    cases fuel with
    | zero => omega
    | succ fuel =>
      have hN : 2 ^ (23 + (k + 1)) ≤ N := by
        rcases h with h | h
        · omega
        · exact h
      have hpow : 2 ^ (23 + (k + 1)) = 2 * 2 ^ (23 + k) := by
        rw [← Nat.add_assoc, pow_succ]; ring
      have h24 : 2 ^ 24 ≤ 2 ^ (23 + (k + 1)) := Nat.pow_le_pow_right (by norm_num) (by omega)
      have hnot : ¬ N < 2 ^ 24 := by omega
      rw [excess_bits_binary32, if_neg hnot]
      have := ih fuel (N / 2) (by omega) (by
        by_cases hk0 : k = 0
        · left; exact hk0
        · right; omega)
      omega

theorem round_binary32_le_multiple (N K : Nat) (hK : N ≤ K)
    (hdvd : 2 ^ excess_bits_binary32 512 N ∣ K) : round_binary32 N ≤ K := by
  obtain ⟨m, rfl⟩ := hdvd
  have hpos : 0 < 2 ^ excess_bits_binary32 512 N := Nat.pos_pow_of_pos _ (by norm_num)
  have hdm := Nat.div_add_mod N (2 ^ excess_bits_binary32 512 N)
  have hmod := Nat.mod_lt N hpos
  simp only [round_binary32]
  generalize 2 ^ excess_bits_binary32 512 N = E at *
  generalize N / E = q at *
  generalize N % E = r at *
  have hqm : q ≤ m := by
    by_contra hlt
    have h1 : m + 1 ≤ q := by omega
    have h2 : E * (m + 1) ≤ E * q := Nat.mul_le_mul_left E h1
    have h3 : E * (m + 1) = E * m + E := by ring
    omega
  split
  · calc q * E ≤ m * E := Nat.mul_le_mul_right E hqm
      _ = E * m := Nat.mul_comm _ _
  · rename_i hnot
    have hr0 : 0 < r := by
      by_contra h0
      have : r = 0 := by omega
      apply hnot; left; omega
    have hqm1 : q + 1 ≤ m := by
      by_contra hlt
      have : m = q := by omega
      subst this
      omega
    calc (q + 1) * E ≤ m * E := Nat.mul_le_mul_right E hqm1
      _ = E * m := Nat.mul_comm _ _

theorem round_binary32_ge_multiple (N K : Nat) (hK : K ≤ N)
    (hdvd : 2 ^ excess_bits_binary32 512 N ∣ K) : K ≤ round_binary32 N := by
  obtain ⟨m, rfl⟩ := hdvd
  have hpos : 0 < 2 ^ excess_bits_binary32 512 N := Nat.pos_pow_of_pos _ (by norm_num)
  have hdm := Nat.div_add_mod N (2 ^ excess_bits_binary32 512 N)
  have hmod := Nat.mod_lt N hpos
  simp only [round_binary32]
  generalize 2 ^ excess_bits_binary32 512 N = E at *
  generalize N / E = q at *
  generalize N % E = r at *
  have hmq : m ≤ q := by
    by_contra hlt
    have h1 : q + 1 ≤ m := by omega
    have h2 : E * (q + 1) ≤ E * m := Nat.mul_le_mul_left E h1
    have h3 : E * (q + 1) = E * q + E := by ring
    omega
  split
  · calc E * m = m * E := Nat.mul_comm _ _
      _ ≤ q * E := Nat.mul_le_mul_right E hmq
  · calc E * m = m * E := Nat.mul_comm _ _
      _ ≤ q * E := Nat.mul_le_mul_right E hmq
      _ ≤ (q + 1) * E := Nat.mul_le_mul_right E (by omega)

theorem round_binary32_exact (N : Nat) (hdvd : 2 ^ excess_bits_binary32 512 N ∣ N) :
    round_binary32 N = N :=
  Nat.le_antisymm (round_binary32_le_multiple N N (Nat.le_refl _) hdvd)
    (round_binary32_ge_multiple N N (Nat.le_refl _) hdvd)

theorem round_binary32_of_excess (N e : Nat) (he : excess_bits_binary32 512 N = e) :
    round_binary32 N
      = if 2 * (N % 2 ^ e) < 2 ^ e ∨ (2 * (N % 2 ^ e) = 2 ^ e ∧ N / 2 ^ e % 2 = 0)
        then N / 2 ^ e * 2 ^ e else (N / 2 ^ e + 1) * 2 ^ e := by
  simp only [round_binary32, he]

/-- The single-precision value of a distance is below 200 exactly when the
distance is below `200 - 2 ^ -17`. -/
theorem round_binary32_lt_200 (N : Nat) (h : N < 2 ^ 173) :
    round_binary32 N < 200 * 2 ^ 149 ↔ N < 200 * 2 ^ 149 - 2 ^ 132 := by
  have hbound : excess_bits_binary32 512 N ≤ 149 := excess_bits_binary32_bound 512 N 149 h
  by_cases hlow : N < 13107199 * 2 ^ 133
  · -- at most the predecessor of 200
    have hle : round_binary32 N ≤ 13107199 * 2 ^ 133 := by
      apply round_binary32_le_multiple N _ (by omega)
      have h156 : N < 2 ^ (24 + 133) := by
        have : (13107199 : Nat) * 2 ^ 133 < 2 ^ (24 + 133) := by norm_num
        omega
      have := excess_bits_binary32_bound 512 N 133 h156
      exact Dvd.dvd.mul_left (pow_dvd_pow 2 this) _
    constructor
    · intro _
      have : (13107199 : Nat) * 2 ^ 133 ≤ 200 * 2 ^ 149 - 2 ^ 132 := by norm_num
      omega
    · intro _
      have : (13107199 : Nat) * 2 ^ 133 < 200 * 2 ^ 149 := by norm_num
      omega
  · by_cases hhigh : N < 13107200 * 2 ^ 133
    · -- between the predecessor of 200 and 200
      have he : excess_bits_binary32 512 N = 133 := by
        apply Nat.le_antisymm
        · exact excess_bits_binary32_bound 512 N 133 (by
            have : (13107200 : Nat) * 2 ^ 133 < 2 ^ (24 + 133) := by norm_num
            omega)
        · exact excess_bits_binary32_ge 133 512 N (by norm_num) (Or.inr (by
            have : (2 : Nat) ^ (23 + 133) ≤ 13107199 * 2 ^ 133 := by norm_num
            omega))
      rw [round_binary32_of_excess N 133 he]
      have hq : N / 2 ^ 133 = 13107199 := by
        apply Nat.div_eq_of_lt_le
        · omega
        · omega
      have hr : N % 2 ^ 133 = N - 13107199 * 2 ^ 133 := by
        have := Nat.div_add_mod N (2 ^ 133)
        rw [hq] at this
        omega
      rw [hq, hr]
      have e1 : (200 : Nat) * 2 ^ 149 = 13107200 * 2 ^ 133 := by norm_num
      have e2 : (2 : Nat) ^ 133 = 2 * 2 ^ 132 := by norm_num
      split
      · rename_i hc
        rcases hc with hc | ⟨_, hc⟩
        · constructor
          · intro _; omega
          · intro _; omega
        · omega
      · rename_i hc
        constructor
        · intro hlt; omega
        · intro hlt
          exfalso; apply hc; left; omega
    · -- at least 200
      have hge : 200 * 2 ^ 149 ≤ round_binary32 N := by
        apply round_binary32_ge_multiple N _ (by
          have : (200 : Nat) * 2 ^ 149 = 13107200 * 2 ^ 133 := by norm_num
          omega)
        have : (200 : Nat) * 2 ^ 149 = 25 * 2 ^ 3 * 2 ^ 149 := by norm_num
        rw [this]
        exact Dvd.dvd.mul_left (pow_dvd_pow 2 hbound) _
      constructor
      · intro _; omega
      · intro hlt
        have : (200 : Nat) * 2 ^ 149 = 13107200 * 2 ^ 133 := by norm_num
        omega

theorem Float32.add_units (a b : Float32) : a + b = Float32.round (a.units + b.units) := rfl

theorem Float32.sub_units (a b : Float32) : a - b = Float32.round (a.units - b.units) := rfl

theorem round_units_nonneg (z : Int) (h : 0 ≤ z) :
    (Float32.round z).units = round_binary32 z.toNat := by
  simp [Float32.round, h]

set_option maxRecDepth 100000 in
theorem abs_round_units (z : Int) :
    (Float32.abs (Float32.round z)).units = round_binary32 z.natAbs := by
  by_cases h : 0 ≤ z
  · have : z.toNat = z.natAbs := by omega
    simp only [Float32.abs, Float32.round, h, if_true, this]
    exact abs_of_nonneg (by positivity)
  · have : (-z).toNat = z.natAbs := by omega
    simp only [Float32.abs, Float32.round, h, if_false, this, abs_neg]
    exact abs_of_nonneg (by positivity)

set_option maxRecDepth 100000 in
theorem int_to_float_exact (i : Int) (h0 : 0 ≤ i) (h : i < 2 ^ 24) :
    int_to_float i = ⟨i * 2 ^ 149⟩ := by
  obtain ⟨n, rfl⟩ := Int.eq_ofNat_of_zero_le h0
  have hn : n < 2 ^ 24 := by exact_mod_cast h
  have hz : (0 : Int) ≤ (n : Int) * 2 ^ 149 := by positivity
  have hnat : ((n : Int) * 2 ^ 149).toNat = n * 2 ^ 149 := by omega
  have hlt : n * 2 ^ 149 < 2 ^ (24 + 149) := by
    have : (2 : Nat) ^ (24 + 149) = 2 ^ 24 * 2 ^ 149 := by rw [pow_add]
    rw [this]
    exact Nat.mul_lt_mul_of_pos_right hn (Nat.pos_pow_of_pos _ (by norm_num))
  have he := excess_bits_binary32_bound 512 (n * 2 ^ 149) 149 hlt
  have hex := round_binary32_exact (n * 2 ^ 149) (Dvd.dvd.mul_left (pow_dvd_pow 2 he) _)
  simp only [int_to_float, Float32.round, hz, if_true, hnat, hex]
  have hcast : ((n * 2 ^ 149 : Nat) : Int) = (n : Int) * 2 ^ 149 := by omega
  rw [hcast]

set_option maxRecDepth 100000 in
theorem distance_lt_200 (c : Int) (x : Float32) (hc0 : 0 ≤ c) (hc : c < 2 ^ 24)
    (hx0 : 0 ≤ x.units) (hx : x.units < 2 ^ 173) :
    float_to_int (Float32.abs (int_to_float c - x)) < 200
      ↔ |c * 2 ^ 149 - x.units| < 200 * 2 ^ 149 - 2 ^ 132 := by
  rw [int_to_float_exact c hc0 hc, Float32.sub_units]
  have hunits := abs_round_units (c * 2 ^ 149 - x.units)
  have hN : (c * 2 ^ 149 - x.units).natAbs < 2 ^ 173 := by omega
  have hiff := round_binary32_lt_200 _ hN
  have hnn : (0 : Int) ≤ (Float32.abs (Float32.round (c * 2 ^ 149 - x.units))).units := by
    rw [hunits]; positivity
  simp only [float_to_int, hnn, if_true]
  rw [hunits]
  have habs : |c * 2 ^ 149 - x.units| = ((c * 2 ^ 149 - x.units).natAbs : Int) :=
    (Int.natCast_natAbs _).symm
  rw [habs]
  generalize (c * 2 ^ 149 - x.units).natAbs = N at *
  generalize round_binary32 N = R at *
  constructor
  · intro h
    have : R < 200 * 2 ^ 149 := by omega
    have := hiff.mp this
    omega
  · intro h
    have : N < 200 * 2 ^ 149 - 2 ^ 132 := by omega
    have := hiff.mpr this
    omega

set_option maxRecDepth 100000 in
theorem sum_step (S : Int) (x : Float32) (hS : 0 ≤ S) (hx : 0 ≤ x.units)
    (hb : S + x.ceil < 2 ^ 24) :
    S + x.floor ≤ float_to_int (int_to_float S + x)
      ∧ float_to_int (int_to_float S + x) ≤ S + x.ceil := by
  have hceil : 0 ≤ x.ceil := by
    simp only [Float32.ceil]; omega
  rw [int_to_float_exact S hS (by omega), Float32.add_units]
  have hz : (0 : Int) ≤ S * 2 ^ 149 + x.units := by positivity
  have hunits := round_units_nonneg _ hz
  have hnn : (0 : Int) ≤ (Float32.round (S * 2 ^ 149 + x.units)).units := by
    rw [hunits]; positivity
  simp only [float_to_int, hnn, if_true, Float32.floor, Float32.ceil] at hb ⊢
  rw [hunits]
  obtain ⟨s, rfl⟩ := Int.eq_ofNat_of_zero_le hS
  obtain ⟨u, hu⟩ := Int.eq_ofNat_of_zero_le hx
  rw [hu] at hb ⊢
  have hnat : ((s : Int) * 2 ^ 149 + (u : Int)).toNat = s * 2 ^ 149 + u := by omega
  rw [hnat]
  have hlt : s * 2 ^ 149 + u < 2 ^ (24 + 149) := by omega
  have he := excess_bits_binary32_bound 512 (s * 2 ^ 149 + u) 149 hlt
  have hlow := round_binary32_ge_multiple (s * 2 ^ 149 + u) ((s * 2 ^ 149 + u) / 2 ^ 149 * 2 ^ 149)
    (Nat.div_mul_le_self _ _) (Dvd.dvd.mul_left (pow_dvd_pow 2 he) _)
  have hup := round_binary32_le_multiple (s * 2 ^ 149 + u)
    ((s * 2 ^ 149 + u + (2 ^ 149 - 1)) / 2 ^ 149 * 2 ^ 149)
    (by omega) (Dvd.dvd.mul_left (pow_dvd_pow 2 he) _)
  generalize round_binary32 (s * 2 ^ 149 + u) = R at *
  omega

theorem unsigned_quotient (s : Int) (n : Nat) (hs : 0 ≤ s) (hlt : s < 2 ^ 31) :
    size_t_to_int (int_to_size_t s / n) = s / (n : Int) := by
  obtain ⟨k, rfl⟩ := Int.eq_ofNat_of_zero_le hs
  have hk : k < 2 ^ 31 := by exact_mod_cast hlt
  have hmod : ((k : Int) % 2 ^ 64).toNat = k := by
    have : (k : Int) % 2 ^ 64 = k := Int.emod_eq_of_lt (by omega) (by omega)
    rw [this]; simp
  have hq : k / n < 2 ^ 31 := lt_of_le_of_lt (Nat.div_le_self k n) hk
  have hq32 : k / n % 2 ^ 32 = k / n := Nat.mod_eq_of_lt (by omega)
  simp only [size_t_to_int, int_to_size_t, hmod, hq32, hq, if_true]
  exact Int.natCast_div k n

theorem sum_nonneg_of_forall (xs : List Int) (h : ∀ x ∈ xs, 0 ≤ x) : 0 ≤ xs.sum := by
  induction xs with
  | nil => simp
  | cons x rest ih =>
    rw [List.sum_cons]
    have hx := h x (List.mem_cons_self _ _)
    have hr := ih fun y hy => h y (List.mem_cons_of_mem _ hy)
    omega

set_option maxRecDepth 100000 in
theorem floor_ceil_nonneg (x : Float32) (hx : 0 ≤ x.units) :
    0 ≤ x.floor ∧ x.floor ≤ x.ceil ∧ x.units ≤ x.ceil * 2 ^ 149 := by
  simp only [Float32.floor, Float32.ceil]
  omega

theorem sum_points_foldl (inliers : List Approach) (start : Point)
    (hstart : 0 ≤ start.x ∧ 0 ≤ start.y)
    (hpos : ∀ a ∈ inliers, 0 ≤ a.train_keypoint.pt.x.units ∧ 0 ≤ a.train_keypoint.pt.y.units)
    (hx : start.x + (inliers.map fun a => a.train_keypoint.pt.x.ceil).sum < 2 ^ 24)
    (hy : start.y + (inliers.map fun a => a.train_keypoint.pt.y.ceil).sum < 2 ^ 24) :
    (start.x + (inliers.map fun a => a.train_keypoint.pt.x.floor).sum
          ≤ (inliers.foldl
              (fun sum rhs =>
                (⟨float_to_int (int_to_float sum.x + rhs.train_keypoint.pt.x),
                  float_to_int (int_to_float sum.y + rhs.train_keypoint.pt.y)⟩ : Point)) start).x
        ∧ (inliers.foldl
              (fun sum rhs =>
                (⟨float_to_int (int_to_float sum.x + rhs.train_keypoint.pt.x),
                  float_to_int (int_to_float sum.y + rhs.train_keypoint.pt.y)⟩ : Point)) start).x
          ≤ start.x + (inliers.map fun a => a.train_keypoint.pt.x.ceil).sum)
      ∧ (start.y + (inliers.map fun a => a.train_keypoint.pt.y.floor).sum
          ≤ (inliers.foldl
              (fun sum rhs =>
                (⟨float_to_int (int_to_float sum.x + rhs.train_keypoint.pt.x),
                  float_to_int (int_to_float sum.y + rhs.train_keypoint.pt.y)⟩ : Point)) start).y
        ∧ (inliers.foldl
              (fun sum rhs =>
                (⟨float_to_int (int_to_float sum.x + rhs.train_keypoint.pt.x),
                  float_to_int (int_to_float sum.y + rhs.train_keypoint.pt.y)⟩ : Point)) start).y
          ≤ start.y + (inliers.map fun a => a.train_keypoint.pt.y.ceil).sum) := by
  induction inliers generalizing start with
  | nil => simp
  | cons a rest ih =>
    have ha := hpos a (List.mem_cons_self _ _)
    have hrest : ∀ b ∈ rest,
        0 ≤ b.train_keypoint.pt.x.units ∧ 0 ≤ b.train_keypoint.pt.y.units :=
      fun b hb => hpos b (List.mem_cons_of_mem _ hb)
    have hcx : 0 ≤ (rest.map fun b => b.train_keypoint.pt.x.ceil).sum :=
      sum_nonneg_of_forall _ (by
        intro v hv
        obtain ⟨b, hb, rfl⟩ := List.mem_map.mp hv
        have := floor_ceil_nonneg _ (hrest b hb).1
        omega)
    have hcy : 0 ≤ (rest.map fun b => b.train_keypoint.pt.y.ceil).sum :=
      sum_nonneg_of_forall _ (by
        intro v hv
        obtain ⟨b, hb, rfl⟩ := List.mem_map.mp hv
        have := floor_ceil_nonneg _ (hrest b hb).2
        omega)
    simp only [List.map_cons, List.sum_cons] at hx hy ⊢
    have hfx := floor_ceil_nonneg _ ha.1
    have hfy := floor_ceil_nonneg _ ha.2
    have hsx := sum_step start.x a.train_keypoint.pt.x hstart.1 ha.1 (by omega)
    have hsy := sum_step start.y a.train_keypoint.pt.y hstart.2 ha.2 (by omega)
    rw [List.foldl_cons]
    have := ih
      ⟨float_to_int (int_to_float start.x + a.train_keypoint.pt.x),
        float_to_int (int_to_float start.y + a.train_keypoint.pt.y)⟩
      ⟨by simp only []; omega, by simp only []; omega⟩ hrest
      (by simp only []; omega) (by simp only []; omega)
    simp only [] at this
    omega

theorem sum_points_bounds (inliers : List Approach)
    (hpos : ∀ a ∈ inliers, 0 ≤ a.train_keypoint.pt.x.units ∧ 0 ≤ a.train_keypoint.pt.y.units)
    (hx : (inliers.map fun a => a.train_keypoint.pt.x.ceil).sum < 2 ^ 24)
    (hy : (inliers.map fun a => a.train_keypoint.pt.y.ceil).sum < 2 ^ 24) :
    ((inliers.map fun a => a.train_keypoint.pt.x.floor).sum ≤ (sum_points inliers).x
        ∧ (sum_points inliers).x ≤ (inliers.map fun a => a.train_keypoint.pt.x.ceil).sum)
      ∧ ((inliers.map fun a => a.train_keypoint.pt.y.floor).sum ≤ (sum_points inliers).y
        ∧ (sum_points inliers).y ≤ (inliers.map fun a => a.train_keypoint.pt.y.ceil).sum) := by
  have := sum_points_foldl inliers ⟨0, 0⟩ ⟨le_refl _, le_refl _⟩ hpos
    (by simpa using hx) (by simpa using hy)
  simpa [sum_points] using this

theorem sum_map_congr (inliers : List Approach) (f g : Approach → Int)
    (h : ∀ a ∈ inliers, f a = g a) : (inliers.map f).sum = (inliers.map g).sum := by
  induction inliers with
  | nil => rfl
  | cons a rest ih =>
    rw [List.map_cons, List.map_cons, List.sum_cons, List.sum_cons,
      h a (List.mem_cons_self _ _), ih fun b hb => h b (List.mem_cons_of_mem _ hb)]

theorem member_le_sum (inliers : List Approach) (f : Approach → Int)
    (h : ∀ a ∈ inliers, 0 ≤ f a) : ∀ a ∈ inliers, f a ≤ (inliers.map f).sum := by
  induction inliers with
  | nil => intro a ha; cases ha
  | cons b rest ih =>
    intro a ha
    have hb := h b (List.mem_cons_self _ _)
    have hrest : ∀ c ∈ rest, 0 ≤ f c := fun c hc => h c (List.mem_cons_of_mem _ hc)
    have hsum : 0 ≤ (rest.map f).sum := sum_nonneg_of_forall _ (by
      intro v hv
      obtain ⟨c, hc, rfl⟩ := List.mem_map.mp hv
      exact hrest c hc)
    rw [List.map_cons, List.sum_cons]
    rcases List.mem_cons.mp ha with heq | hmem
    · rw [heq]; omega
    · have := ih hrest a hmem
      omega

set_option maxRecDepth 100000 in
/-- C10, the claim at an input: for the inliers `(1, 0)` and `(400, 0)` the
arithmetic mean is `(200.5, 0)`, both inliers are closer than 200 to it on both
axes, and yet the code keeps only `(1, 0)`: its centroid is `(200, 0)`, from
which `(400, 0)` is 200 away. -/
theorem centroid_is_not_the_mean :
    avg_point (sum_points [inlier_at 1 0, inlier_at 400 0]) 2 = ⟨200, 0⟩
      ∧ 2 * ((avg_point (sum_points [inlier_at 1 0, inlier_at 400 0]) 2).x * 2 ^ 149)
          ≠ ([inlier_at 1 0, inlier_at 400 0].map fun a => a.train_keypoint.pt.x.units).sum
      ∧ centroid_loop 200 (avg_point (sum_points [inlier_at 1 0, inlier_at 400 0]) 2)
          [inlier_at 1 0, inlier_at 400 0] = [inlier_at 1 0]
      ∧ [inlier_at 1 0, inlier_at 400 0].filter (near_mean 200 [inlier_at 1 0, inlier_at 400 0])
          = [inlier_at 1 0, inlier_at 400 0]
      ∧ feature_match_tail plain_cv "k" 2 [inlier_at 1 0, inlier_at 400 0]
          = some ⟨"k", ⟨1, 0, 0, 0⟩⟩ := by
  decide

set_option maxRecDepth 100000 in
/-- C10, amended. For every non-empty list of RANSAC inliers at non-negative
frame coordinates whose sums, each coordinate rounded up to a whole pixel, stay
below `2 ^ 24`:

* the sum that `feature_match` accumulates lies between the sum of the
  coordinates rounded down and the sum of the coordinates rounded up, and is the
  exact sum when the positions are whole pixels;
* the centroid is that sum divided by the number of inliers, rounded down;
* the surviving points are exactly the inliers whose horizontal and vertical
  distance from the centroid are both below `200 - 2 ^ -17` (the largest
  distances whose single-precision value is below 200), in inlier order; for an
  inlier at a whole-pixel position that is a distance below 200;
* an inlier at distance 200 or more on either axis is discarded;
* the result of `feature_match` is built from the surviving points alone.

Distances are counted in units of `2 ^ -149`. -/
theorem centroid_filter_single_precision (cv : Externals Mat Hist Desc Score) (key : String)
    (query_size : Nat) (inliers : List Approach)
    (hne : inliers ≠ [])
    (hpos : ∀ a ∈ inliers, 0 ≤ a.train_keypoint.pt.x.units ∧ 0 ≤ a.train_keypoint.pt.y.units)
    (hx : (inliers.map fun a => a.train_keypoint.pt.x.ceil).sum < 2 ^ 24)
    (hy : (inliers.map fun a => a.train_keypoint.pt.y.ceil).sum < 2 ^ 24) :
    let sum := sum_points inliers
    let centroid := avg_point (sum_points inliers) inliers.length
    let near := fun (a : Approach) => decide
      (|centroid.x * 2 ^ 149 - a.train_keypoint.pt.x.units| < 200 * 2 ^ 149 - 2 ^ 132
        ∧ |centroid.y * 2 ^ 149 - a.train_keypoint.pt.y.units| < 200 * 2 ^ 149 - 2 ^ 132)
    ((inliers.map fun a => a.train_keypoint.pt.x.floor).sum ≤ sum.x
        ∧ sum.x ≤ (inliers.map fun a => a.train_keypoint.pt.x.ceil).sum
        ∧ (inliers.map fun a => a.train_keypoint.pt.y.floor).sum ≤ sum.y
        ∧ sum.y ≤ (inliers.map fun a => a.train_keypoint.pt.y.ceil).sum)
      ∧ ((∀ a ∈ inliers, a.train_keypoint.pt.x.floor = a.train_keypoint.pt.x.ceil
            ∧ a.train_keypoint.pt.y.floor = a.train_keypoint.pt.y.ceil) →
          sum.x * 2 ^ 149 = (inliers.map fun a => a.train_keypoint.pt.x.units).sum
            ∧ sum.y * 2 ^ 149 = (inliers.map fun a => a.train_keypoint.pt.y.units).sum)
      ∧ centroid = ⟨sum.x / (inliers.length : Int), sum.y / (inliers.length : Int)⟩
      ∧ centroid_loop 200 centroid inliers = inliers.filter near
      ∧ (∀ a ∈ inliers, ∀ X Y : Int,
          a.train_keypoint.pt.x.units = X * 2 ^ 149 → a.train_keypoint.pt.y.units = Y * 2 ^ 149 →
          (near a = true ↔ |centroid.x - X| < 200 ∧ |centroid.y - Y| < 200))
      ∧ (∀ a ∈ inliers,
          200 * 2 ^ 149 ≤ |centroid.x * 2 ^ 149 - a.train_keypoint.pt.x.units|
            ∨ 200 * 2 ^ 149 ≤ |centroid.y * 2 ^ 149 - a.train_keypoint.pt.y.units| →
          a ∉ centroid_loop 200 centroid inliers)
      ∧ feature_match_tail cv key query_size inliers
        = accept_area key query_size
            ((inliers.filter near).map fun a => point2f_to_point cv a.train_keypoint.pt) := by
  intro sum centroid near
  have hn : 0 < inliers.length := List.length_pos.mpr hne
  obtain ⟨⟨hxlo, hxhi⟩, ⟨hylo, hyhi⟩⟩ := sum_points_bounds inliers hpos hx hy
  have hfx : ∀ a ∈ inliers, 0 ≤ a.train_keypoint.pt.x.floor :=
    fun a ha => (floor_ceil_nonneg _ (hpos a ha).1).1
  have hfy : ∀ a ∈ inliers, 0 ≤ a.train_keypoint.pt.y.floor :=
    fun a ha => (floor_ceil_nonneg _ (hpos a ha).2).1
  have hsx : 0 ≤ sum.x :=
    le_trans (sum_nonneg_of_forall _ (by
      intro v hv
      obtain ⟨a, ha, rfl⟩ := List.mem_map.mp hv
      exact hfx a ha)) hxlo
  have hsy : 0 ≤ sum.y :=
    le_trans (sum_nonneg_of_forall _ (by
      intro v hv
      obtain ⟨a, ha, rfl⟩ := List.mem_map.mp hv
      exact hfy a ha)) hylo
  have hsx24 : sum.x < 2 ^ 24 := lt_of_le_of_lt hxhi hx
  have hsy24 : sum.y < 2 ^ 24 := lt_of_le_of_lt hyhi hy
  have havg : centroid = ⟨sum.x / (inliers.length : Int), sum.y / (inliers.length : Int)⟩ := by
    simp only [centroid, avg_point]
    rw [unsigned_quotient _ _ hsx (by omega), unsigned_quotient _ _ hsy (by omega)]
  have hnpos : (0 : Int) < (inliers.length : Int) := by exact_mod_cast hn
  have hcx0 : 0 ≤ centroid.x := by rw [havg]; exact Int.ediv_nonneg hsx (le_of_lt hnpos)
  have hcy0 : 0 ≤ centroid.y := by rw [havg]; exact Int.ediv_nonneg hsy (le_of_lt hnpos)
  have hcx : centroid.x < 2 ^ 24 := by
    rw [havg]
    exact lt_of_le_of_lt (Int.ediv_le_self _ hsx) hsx24
  have hcy : centroid.y < 2 ^ 24 := by
    rw [havg]
    exact lt_of_le_of_lt (Int.ediv_le_self _ hsy) hsy24
  have hux : ∀ a ∈ inliers, a.train_keypoint.pt.x.units < 2 ^ 173 := by
    intro a ha
    have h1 : a.train_keypoint.pt.x.ceil
        ≤ (inliers.map fun a => a.train_keypoint.pt.x.ceil).sum :=
      member_le_sum inliers (fun a => a.train_keypoint.pt.x.ceil)
        (fun b hb => le_trans (floor_ceil_nonneg _ (hpos b hb).1).1
          (floor_ceil_nonneg _ (hpos b hb).1).2.1) a ha
    have h2 := (floor_ceil_nonneg _ (hpos a ha).1).2.2
    have h3 : a.train_keypoint.pt.x.ceil < 2 ^ 24 := lt_of_le_of_lt h1 hx
    omega
  have huy : ∀ a ∈ inliers, a.train_keypoint.pt.y.units < 2 ^ 173 := by
    intro a ha
    have h1 : a.train_keypoint.pt.y.ceil
        ≤ (inliers.map fun a => a.train_keypoint.pt.y.ceil).sum :=
      member_le_sum inliers (fun a => a.train_keypoint.pt.y.ceil)
        (fun b hb => le_trans (floor_ceil_nonneg _ (hpos b hb).2).1
          (floor_ceil_nonneg _ (hpos b hb).2).2.1) a ha
    have h2 := (floor_ceil_nonneg _ (hpos a ha).2).2.2
    have h3 : a.train_keypoint.pt.y.ceil < 2 ^ 24 := lt_of_le_of_lt h1 hy
    omega
  have hnear : ∀ a ∈ inliers,
      decide (float_to_int (Float32.abs (int_to_float centroid.x - a.train_keypoint.pt.x)) < 200
        ∧ float_to_int (Float32.abs (int_to_float centroid.y - a.train_keypoint.pt.y)) < 200)
      = near a := by
    intro a ha
    simp only [near]
    rw [decide_eq_decide]
    exact and_congr
      (distance_lt_200 centroid.x _ hcx0 hcx (hpos a ha).1 (hux a ha))
      (distance_lt_200 centroid.y _ hcy0 hcy (hpos a ha).2 (huy a ha))
  have hloop : centroid_loop 200 centroid inliers = inliers.filter near := by
    simp only [centroid_loop]
    exact List.filter_congr hnear
  refine ⟨⟨hxlo, hxhi, hylo, hyhi⟩, ?_, havg, hloop, ?_, ?_, ?_⟩
  · intro hwhole
    have hxeq : (inliers.map fun a => a.train_keypoint.pt.x.floor).sum
        = (inliers.map fun a => a.train_keypoint.pt.x.ceil).sum :=
      sum_map_congr inliers _ _ fun a ha => (hwhole a ha).1
    have hyeq : (inliers.map fun a => a.train_keypoint.pt.y.floor).sum
        = (inliers.map fun a => a.train_keypoint.pt.y.ceil).sum :=
      sum_map_congr inliers _ _ fun a ha => (hwhole a ha).2
    have hxu : (inliers.map fun a => a.train_keypoint.pt.x.units).sum
        = (inliers.map fun a => a.train_keypoint.pt.x.floor * 2 ^ 149).sum :=
      sum_map_congr inliers _ _ fun a ha => by
        have := (hwhole a ha).1
        simp only [Float32.floor, Float32.ceil] at this ⊢
        omega
    have hyu : (inliers.map fun a => a.train_keypoint.pt.y.units).sum
        = (inliers.map fun a => a.train_keypoint.pt.y.floor * 2 ^ 149).sum :=
      sum_map_congr inliers _ _ fun a ha => by
        have := (hwhole a ha).2
        simp only [Float32.floor, Float32.ceil] at this ⊢
        omega
    have hxs : sum.x = (inliers.map fun a => a.train_keypoint.pt.x.floor).sum :=
      le_antisymm (by rw [hxeq]; exact hxhi) hxlo
    have hys : sum.y = (inliers.map fun a => a.train_keypoint.pt.y.floor).sum :=
      le_antisymm (by rw [hyeq]; exact hyhi) hylo
    rw [hxu, hyu, List.sum_map_mul_right, List.sum_map_mul_right, hxs, hys]
    exact ⟨rfl, rfl⟩
  · intro a _ X Y hX hY
    simp only [near, decide_eq_true_eq, hX, hY, abs_lt]
    constructor
    · rintro ⟨⟨h1, h2⟩, ⟨h3, h4⟩⟩
      exact ⟨⟨by omega, by omega⟩, ⟨by omega, by omega⟩⟩
    · rintro ⟨⟨h1, h2⟩, ⟨h3, h4⟩⟩
      exact ⟨⟨by omega, by omega⟩, ⟨by omega, by omega⟩⟩
  · intro a _ hfar hmem
    rw [hloop] at hmem
    have hkeep := (List.mem_filter.mp hmem).2
    simp only [near, decide_eq_true_eq] at hkeep
    rcases hfar with h | h
    · have := hkeep.1; omega
    · have := hkeep.2; omega
  · have hlen : ¬ inliers.length = 0 := by omega
    simp only [feature_match_tail, hlen, if_false]
    rw [hloop]

set_option maxRecDepth 100000 in
theorem centroid_filter_single_precision_witness :
    ([inlier_at 1 0, inlier_at 400 0] ≠ []
        ∧ (∀ a ∈ [inlier_at 1 0, inlier_at 400 0],
            0 ≤ a.train_keypoint.pt.x.units ∧ 0 ≤ a.train_keypoint.pt.y.units)
        ∧ ([inlier_at 1 0, inlier_at 400 0].map fun a => a.train_keypoint.pt.x.ceil).sum < 2 ^ 24
        ∧ ([inlier_at 1 0, inlier_at 400 0].map fun a => a.train_keypoint.pt.y.ceil).sum < 2 ^ 24)
      ∧ avg_point (sum_points [inlier_at 1 0, inlier_at 400 0])
            [inlier_at 1 0, inlier_at 400 0].length
          = ⟨(sum_points [inlier_at 1 0, inlier_at 400 0]).x
                / ([inlier_at 1 0, inlier_at 400 0].length : Int),
              (sum_points [inlier_at 1 0, inlier_at 400 0]).y
                / ([inlier_at 1 0, inlier_at 400 0].length : Int)⟩
      ∧ sum_points [inlier_at 1 0, inlier_at 400 0] = ⟨401, 0⟩
      ∧ centroid_loop 200 ⟨200, 0⟩ [inlier_at 1 0, inlier_at 400 0] = [inlier_at 1 0] :=
  ⟨⟨by decide, by decide, by decide, by decide⟩,
    (centroid_filter_single_precision plain_cv "k" 2 [inlier_at 1 0, inlier_at 400 0] (by decide)
      (by decide) (by decide) (by decide)).2.2.1,
    by decide, by decide⟩

set_option maxRecDepth 100000 in
/-- Single precision at work.  For the inliers `(16777216, 5)` and
`(16777614, 5)` the exact sum `33554830` is not a `float`: the accumulated sum
is `33554832` and the centroid `16777416`, so that only the second inlier
survives.  With three inliers at `(-1, 0)` the unsigned division gives the
centroid `1431655764`.  With inliers at `(0.5, 0)` and `(1.5, 0)` the
accumulated sum is `1` and the centroid `(0, 0)`.  With inliers at
`(1000000, 0)` and `(1 - 2 ^ -10, 0)` the single-precision sum rounds up to
`1000001`.  With inliers at `(2 ^ -20, 0)` and `(400, 0)` the centroid is
`(200, 0)` and the distance `200 - 2 ^ -20` of the first inlier rounds to 200,
so that no inlier survives. -/
theorem centroid_single_precision_examples :
    sum_points [inlier_at 16777216 5, inlier_at 16777614 5] = ⟨33554832, 10⟩
      ∧ avg_point (sum_points [inlier_at 16777216 5, inlier_at 16777614 5]) 2 = ⟨16777416, 5⟩
      ∧ centroid_loop 200 ⟨16777416, 5⟩ [inlier_at 16777216 5, inlier_at 16777614 5]
          = [inlier_at 16777614 5]
      ∧ avg_point
          (sum_points [inlier_at ⟨-2 ^ 149⟩ 0, inlier_at ⟨-2 ^ 149⟩ 0, inlier_at ⟨-2 ^ 149⟩ 0]) 3
          = ⟨1431655764, 0⟩
      ∧ sum_points [inlier_at ⟨2 ^ 148⟩ 0, inlier_at ⟨3 * 2 ^ 148⟩ 0] = ⟨1, 0⟩
      ∧ avg_point (sum_points [inlier_at ⟨2 ^ 148⟩ 0, inlier_at ⟨3 * 2 ^ 148⟩ 0]) 2 = ⟨0, 0⟩
      ∧ centroid_loop 200 ⟨0, 0⟩ [inlier_at ⟨2 ^ 148⟩ 0, inlier_at ⟨3 * 2 ^ 148⟩ 0]
          = [inlier_at ⟨2 ^ 148⟩ 0, inlier_at ⟨3 * 2 ^ 148⟩ 0]
      ∧ sum_points [inlier_at 1000000 0, inlier_at ⟨2 ^ 149 - 2 ^ 139⟩ 0] = ⟨1000001, 0⟩
      ∧ avg_point (sum_points [inlier_at ⟨2 ^ 129⟩ 0, inlier_at 400 0]) 2 = ⟨200, 0⟩
      ∧ centroid_loop 200 ⟨200, 0⟩ [inlier_at ⟨2 ^ 129⟩ 0, inlier_at 400 0] = [] := by
  decide

end Centroid

section TextFirst

variable {Mat Hist Desc Score : Type}

theorem find_text_first_eq_find (detected : List TextArea) (text : String) :
    find_text_first detected text
      = (detected.find? fun res => decide (res.text = text)).map fun res => res.rect := by
  induction detected with
  | nil => rfl
  | cons res rest ih =>
    by_cases h : res.text = text
    · simp [find_text_first, List.find?_cons, h]
    · simp [find_text_first, List.find?_cons, h, ih]

/-- C11. For every list of detected text areas and every label, the
single-label `find_text` returns the rectangle of the first detected area, in
detection order, whose text equals the label: if the areas before `res` have
another text and `res` has the text, the result is the rectangle of `res`.  It
returns none exactly when no detected area has that text. -/
theorem find_text_first_match (cv : Externals Mat Hist Desc Score) (mat : Mat) (text : String) :
    find_text cv mat text
        = ((ocr_detect cv mat).find? fun res => decide (res.text = text)).map (fun res => res.rect)
      ∧ (∀ before res after, ocr_detect cv mat = before ++ res :: after →
          (∀ r ∈ before, r.text ≠ text) → res.text = text → find_text cv mat text = some res.rect)
      ∧ (find_text cv mat text = none ↔ ∀ res ∈ ocr_detect cv mat, res.text ≠ text) := by
  have hfind := find_text_first_eq_find (ocr_detect cv mat) text
  refine ⟨hfind, ?_, ?_⟩
  · intro before res after hsplit hbefore hres
    rw [find_text, hsplit]
    clear hsplit hfind
    induction before with
    | nil => simp [find_text_first, hres]
    | cons r rest ih =>
      have hr : r.text ≠ text := hbefore r (List.mem_cons_self _ _)
      simp only [List.cons_append, find_text_first, hr, if_false]
      exact ih fun q hq => hbefore q (List.mem_cons_of_mem _ hq)
  · rw [find_text, hfind]
    simp

theorem find_text_first_match_witness :
    (ocr_detect (ocr_cv [block "A" 10 10 30 12, block "B" 60 10 30 12, block "B" 110 10 30 12]) 0
          = [⟨"A", ⟨10, 10, 30, 12⟩⟩] ++ ⟨"B", ⟨60, 10, 30, 12⟩⟩ :: [⟨"B", ⟨110, 10, 30, 12⟩⟩]
        ∧ (∀ r ∈ ([⟨"A", ⟨10, 10, 30, 12⟩⟩] : List TextArea), r.text ≠ "B"))
      ∧ find_text (ocr_cv [block "A" 10 10 30 12, block "B" 60 10 30 12, block "B" 110 10 30 12]) 0 "B"
          = some ⟨60, 10, 30, 12⟩ :=
  ⟨⟨by decide, by decide⟩,
    (find_text_first_match
      (ocr_cv [block "A" 10 10 30 12, block "B" 60 10 30 12, block "B" 110 10 30 12]) 0 "B").2.1
      [⟨"A", ⟨10, 10, 30, 12⟩⟩] ⟨"B", ⟨60, 10, 30, 12⟩⟩ [⟨"B", ⟨110, 10, 30, 12⟩⟩]
      (by decide) (by decide) (by decide)⟩

/-- The single-label `find_text` on the example of the specification, with a
second `"B"` further on: the first `"B"` is returned, and `"D"` is not found. -/
theorem find_text_first_match_example :
    find_text (ocr_cv [block "A" 10 10 30 12, block "B" 60 10 30 12, block "B" 110 10 30 12]) 0 "B"
        = some ⟨60, 10, 30, 12⟩
      ∧ find_text (ocr_cv [block "A" 10 10 30 12, block "B" 60 10 30 12, block "B" 110 10 30 12]) 0 "D"
        = none := by
  decide

end TextFirst

section CacheInvariant

variable {Mat Hist Desc Score : Type} [Zero Score] [One Score] [Sub Score] [LE Score]
  [DecidableRel (fun a b : Score => a ≤ b)]

theorem find_image_use_cache (cv : Externals Mat Hist Desc Score) (self : Identify Mat Hist Desc)
    (cur : Mat) (templ : String) (templ_threshold : Score) :
    (find_image cv self cur templ templ_threshold).2.m_use_cache = self.m_use_cache := by
  simp only [find_image]
  split
  · rfl
  · split
    · rfl
    · simp only []
      split <;> rfl

theorem find_image_cache_when_disabled (cv : Externals Mat Hist Desc Score)
    (self : Identify Mat Hist Desc) (cur : Mat) (templ : String) (templ_threshold : Score)
    (hoff : self.m_use_cache = false) :
    (find_image cv self cur templ templ_threshold).2 = self := by
  simp only [find_image, hoff, Bool.false_eq_true, if_false, false_and]
  split <;> rfl

theorem after_call_invariant (cv : Externals Mat Hist Desc Score) (self : Identify Mat Hist Desc)
    (c : Call Mat Score) (hinv : self.m_use_cache = false → self.m_cache_map = []) :
    (after_call cv self c).m_use_cache = false → (after_call cv self c).m_cache_map = [] := by
  cases c with
  | add_image name path =>
    simp only [after_call, add_image]
    split <;> exact hinv
  | add_text_image text path =>
    simp only [after_call, add_text_image]
    split <;> exact hinv
  | set_use_cache b =>
    cases b <;> simp [after_call, set_use_cache]
  | clear_cache => simp [after_call, clear_cache]
  | find_image cur templ templ_threshold =>
    intro hoff
    have hsame := find_image_use_cache cv self cur templ templ_threshold
    have hself : self.m_use_cache = false := by rw [← hsame]; exact hoff
    simp only [after_call]
    rw [find_image_cache_when_disabled cv self cur templ templ_threshold hself]
    exact hinv hself

theorem after_calls_invariant (cv : Externals Mat Hist Desc Score) (init : Identify Mat Hist Desc)
    (calls : List (Call Mat Score)) (hinv : init.m_use_cache = false → init.m_cache_map = []) :
    (after_calls cv init calls).m_use_cache = false
      → (after_calls cv init calls).m_cache_map = [] := by
  induction calls generalizing init with
  | nil => exact hinv
  | cons c rest ih =>
    simp only [after_calls, List.foldl_cons]
    exact ih (after_call cv init c) (after_call_invariant cv init c hinv)

/-- C12. In every state reached from a state with caching disabled and an empty
cache, through any sequence of `add_image`, `add_text_image`, `set_use_cache`,
`clear_cache` and `find_image` calls, the cache holds no entries whenever
caching is disabled. -/
theorem cache_empty_while_disabled (cv : Externals Mat Hist Desc Score)
    (init : Identify Mat Hist Desc) (calls : List (Call Mat Score))
    (hoff : init.m_use_cache = false) (hempty : init.m_cache_map = []) :
    (after_calls cv init calls).m_use_cache = false
      → (after_calls cv init calls).m_cache_map = [] := by
  have hinit : init.m_use_cache = false ∧ init.m_cache_map = [] := ⟨hoff, hempty⟩
  exact after_calls_invariant cv init calls fun _ => hinit.2

theorem cache_empty_while_disabled_witness :
    (fresh.m_use_cache = false ∧ fresh.m_cache_map = [])
      ∧ (after_calls plain_cv fresh
          [.add_image "b" "xyz", .set_use_cache true, .find_image 9 "b" 5]).m_cache_map
          = [("b", (⟨3, 4, 3, 3⟩, 12))]
      ∧ ((after_calls plain_cv fresh
          [.add_image "b" "xyz", .set_use_cache true, .find_image 9 "b" 5,
            .set_use_cache false, .find_image 9 "b" 5]).m_use_cache = false
        → (after_calls plain_cv fresh
          [.add_image "b" "xyz", .set_use_cache true, .find_image 9 "b" 5,
            .set_use_cache false, .find_image 9 "b" 5]).m_cache_map = []) :=
  ⟨⟨by decide, by decide⟩, by decide,
    cache_empty_while_disabled plain_cv fresh _ (by decide) (by decide)⟩

end CacheInvariant

section BoundingBox

theorem foldl_min_le_start (f : Point → Int) (ps : List Point) (m : Int) :
    ps.foldl (fun a q => min a (f q)) m ≤ m := by
  induction ps generalizing m with
  | nil => exact le_refl m
  | cons p rest ih => exact le_trans (ih (min m (f p))) (min_le_left m (f p))

theorem foldl_min_le_mem (f : Point → Int) (ps : List Point) (m : Int) (q : Point) (hq : q ∈ ps) :
    ps.foldl (fun a q => min a (f q)) m ≤ f q := by
  induction ps generalizing m with
  | nil => cases hq
  | cons p rest ih =>
    rcases List.mem_cons.mp hq with heq | hrest
    · subst heq
      exact le_trans (foldl_min_le_start f rest (min m (f q))) (min_le_right m (f q))
    · exact ih (min m (f p)) hrest

theorem foldl_min_attained (f : Point → Int) (ps : List Point) (m : Int) :
    ps.foldl (fun a q => min a (f q)) m = m
      ∨ ∃ q ∈ ps, ps.foldl (fun a q => min a (f q)) m = f q := by
  induction ps generalizing m with
  | nil => exact Or.inl rfl
  | cons p rest ih =>
    rcases ih (min m (f p)) with h | ⟨q, hq, h⟩
    · rcases min_choice m (f p) with hm | hm
      · left; rw [List.foldl_cons, h, hm]
      · right; exact ⟨p, List.mem_cons_self _ _, by rw [List.foldl_cons, h, hm]⟩
    · right; exact ⟨q, List.mem_cons_of_mem _ hq, h⟩

theorem foldl_max_ge_start (f : Point → Int) (ps : List Point) (m : Int) :
    m ≤ ps.foldl (fun a q => max a (f q)) m := by
  induction ps generalizing m with
  | nil => exact le_refl m
  | cons p rest ih => exact le_trans (le_max_left m (f p)) (ih (max m (f p)))

theorem foldl_max_ge_mem (f : Point → Int) (ps : List Point) (m : Int) (q : Point) (hq : q ∈ ps) :
    f q ≤ ps.foldl (fun a q => max a (f q)) m := by
  induction ps generalizing m with
  | nil => cases hq
  | cons p rest ih =>
    rcases List.mem_cons.mp hq with heq | hrest
    · subst heq
      exact le_trans (le_max_right m (f q)) (foldl_max_ge_start f rest (max m (f q)))
    · exact ih (max m (f p)) hrest

theorem foldl_max_attained (f : Point → Int) (ps : List Point) (m : Int) :
    ps.foldl (fun a q => max a (f q)) m = m
      ∨ ∃ q ∈ ps, ps.foldl (fun a q => max a (f q)) m = f q := by
  induction ps generalizing m with
  | nil => exact Or.inl rfl
  | cons p rest ih =>
    rcases ih (max m (f p)) with h | ⟨q, hq, h⟩
    · rcases max_choice m (f p) with hm | hm
      · left; rw [List.foldl_cons, h, hm]
      · right; exact ⟨p, List.mem_cons_self _ _, by rw [List.foldl_cons, h, hm]⟩
    · right; exact ⟨q, List.mem_cons_of_mem _ hq, h⟩

theorem bounds_step_nonzero (b : Bounds) (q : Point)
    (hl : b.left ≠ 0) (hr : b.right ≠ 0) (ht : b.top ≠ 0) (hb : b.bottom ≠ 0) :
    bounds_step b q = ⟨min b.left q.x, max b.right q.x, min b.top q.y, max b.bottom q.y⟩ := by
  simp only [bounds_step, hl, hr, ht, hb, or_false, Bounds.mk.injEq]
  refine ⟨?_, ?_, ?_, ?_⟩
  · split <;> omega
  · split <;> omega
  · split <;> omega
  · split <;> omega

theorem bounds_foldl_nonzero (ps : List Point) (b : Bounds)
    (hl : b.left ≠ 0) (hr : b.right ≠ 0) (ht : b.top ≠ 0) (hb : b.bottom ≠ 0)
    (hps : ∀ q ∈ ps, q.x ≠ 0 ∧ q.y ≠ 0) :
    ps.foldl bounds_step b
      = ⟨ps.foldl (fun a q => min a q.x) b.left, ps.foldl (fun a q => max a q.x) b.right,
          ps.foldl (fun a q => min a q.y) b.top, ps.foldl (fun a q => max a q.y) b.bottom⟩ := by
  induction ps generalizing b with
  | nil => rfl
  | cons p rest ih =>
    have hp := hps p (List.mem_cons_self _ _)
    rw [List.foldl_cons, bounds_step_nonzero b p hl hr ht hb]
    rw [ih _ (by simp only []; omega) (by simp only []; omega) (by simp only []; omega)
      (by simp only []; omega) (fun q hq => hps q (List.mem_cons_of_mem _ hq))]
    rfl

/-- C13. For every non-empty list of surviving points none of whose
coordinates is `0`, the rectangle computed by the loop with the zero sentinel
is the bounding box `(min x, min y, max x - min x, max y - min y)`: every
point lies between its sides, and each side passes through a point. -/
theorem bounds_loop_exact (good_points : List Point) (hne : good_points ≠ [])
    (hnz : ∀ p ∈ good_points, p.x ≠ 0 ∧ p.y ≠ 0) :
    bounds_rect (bounds_loop good_points) = bounding_box good_points
      ∧ (∀ p ∈ good_points,
          (bounds_rect (bounds_loop good_points)).x ≤ p.x
            ∧ p.x ≤ (bounds_rect (bounds_loop good_points)).x
                + (bounds_rect (bounds_loop good_points)).width
            ∧ (bounds_rect (bounds_loop good_points)).y ≤ p.y
            ∧ p.y ≤ (bounds_rect (bounds_loop good_points)).y
                + (bounds_rect (bounds_loop good_points)).height)
      ∧ (∃ p ∈ good_points, p.x = (bounds_rect (bounds_loop good_points)).x)
      ∧ (∃ p ∈ good_points, p.x = (bounds_rect (bounds_loop good_points)).x
          + (bounds_rect (bounds_loop good_points)).width)
      ∧ (∃ p ∈ good_points, p.y = (bounds_rect (bounds_loop good_points)).y)
      ∧ (∃ p ∈ good_points, p.y = (bounds_rect (bounds_loop good_points)).y
          + (bounds_rect (bounds_loop good_points)).height) := by
  cases good_points with
  | nil => exact absurd rfl hne
  | cons p ps =>
    have hp := hnz p (List.mem_cons_self _ _)
    have hps : ∀ q ∈ ps, q.x ≠ 0 ∧ q.y ≠ 0 := fun q hq => hnz q (List.mem_cons_of_mem _ hq)
    have hfirst : bounds_step ⟨0, 0, 0, 0⟩ p = ⟨p.x, p.x, p.y, p.y⟩ := by
      simp [bounds_step]
    have hloop : bounds_loop (p :: ps)
        = ⟨ps.foldl (fun a q => min a q.x) p.x, ps.foldl (fun a q => max a q.x) p.x,
            ps.foldl (fun a q => min a q.y) p.y, ps.foldl (fun a q => max a q.y) p.y⟩ := by
      rw [bounds_loop, List.foldl_cons, hfirst]
      exact bounds_foldl_nonzero ps _ hp.1 hp.1 hp.2 hp.2 hps
    have hrect : bounds_rect (bounds_loop (p :: ps)) = bounding_box (p :: ps) := by
      rw [hloop]; rfl
    rw [hrect]
    simp only [bounding_box]
    refine ⟨trivial, ?_, ?_, ?_, ?_, ?_⟩
    · intro q hq
      rcases List.mem_cons.mp hq with heq | hrest
      · subst heq
        have h1 := foldl_min_le_start (fun r => r.x) ps q.x
        have h2 := foldl_max_ge_start (fun r => r.x) ps q.x
        have h3 := foldl_min_le_start (fun r => r.y) ps q.y
        have h4 := foldl_max_ge_start (fun r => r.y) ps q.y
        simp only [] at h1 h2 h3 h4
        refine ⟨h1, ?_, h3, ?_⟩ <;> omega
      · have h1 := foldl_min_le_mem (fun r => r.x) ps p.x q hrest
        have h2 := foldl_max_ge_mem (fun r => r.x) ps p.x q hrest
        have h3 := foldl_min_le_mem (fun r => r.y) ps p.y q hrest
        have h4 := foldl_max_ge_mem (fun r => r.y) ps p.y q hrest
        simp only [] at h1 h2 h3 h4
        refine ⟨h1, ?_, h3, ?_⟩ <;> omega
    · rcases foldl_min_attained (fun r => r.x) ps p.x with h | ⟨q, hq, h⟩
      · exact ⟨p, List.mem_cons_self _ _, h.symm⟩
      · exact ⟨q, List.mem_cons_of_mem _ hq, h.symm⟩
    · rcases foldl_max_attained (fun r => r.x) ps p.x with h | ⟨q, hq, h⟩
      · exact ⟨p, List.mem_cons_self _ _, by omega⟩
      · exact ⟨q, List.mem_cons_of_mem _ hq, by omega⟩
    · rcases foldl_min_attained (fun r => r.y) ps p.y with h | ⟨q, hq, h⟩
      · exact ⟨p, List.mem_cons_self _ _, h.symm⟩
      · exact ⟨q, List.mem_cons_of_mem _ hq, h.symm⟩
    · rcases foldl_max_attained (fun r => r.y) ps p.y with h | ⟨q, hq, h⟩
      · exact ⟨p, List.mem_cons_self _ _, by omega⟩
      · exact ⟨q, List.mem_cons_of_mem _ hq, by omega⟩

theorem bounds_loop_exact_witness :
    (([⟨5, 12⟩, ⟨30, 40⟩, ⟨20, 20⟩] : List Point) ≠ []
        ∧ ∀ p ∈ ([⟨5, 12⟩, ⟨30, 40⟩, ⟨20, 20⟩] : List Point), p.x ≠ 0 ∧ p.y ≠ 0)
      ∧ bounds_rect (bounds_loop [⟨5, 12⟩, ⟨30, 40⟩, ⟨20, 20⟩])
          = bounding_box [⟨5, 12⟩, ⟨30, 40⟩, ⟨20, 20⟩]
      ∧ bounding_box [⟨5, 12⟩, ⟨30, 40⟩, ⟨20, 20⟩] = ⟨5, 12, 25, 28⟩ :=
  ⟨⟨by decide, by decide⟩,
    (bounds_loop_exact [⟨5, 12⟩, ⟨30, 40⟩, ⟨20, 20⟩] (by decide) (by decide)).1, by decide⟩

theorem bounds_step_around (b : Bounds) (q : Point) :
    (bounds_step b q).left ≤ q.x ∧ q.x ≤ (bounds_step b q).right
      ∧ (bounds_step b q).top ≤ q.y ∧ q.y ≤ (bounds_step b q).bottom := by
  simp only [bounds_step]
  refine ⟨?_, ?_, ?_, ?_⟩
  · split
    · exact le_refl _
    · rename_i h
      have := not_or.mp h
      omega
  · split
    · exact le_refl _
    · rename_i h
      have := not_or.mp h
      omega
  · split
    · exact le_refl _
    · rename_i h
      have := not_or.mp h
      omega
  · split
    · exact le_refl _
    · rename_i h
      have := not_or.mp h
      omega

/-- C14. For every list of surviving points, with any integer coordinates, the
bounds after the accumulation loop satisfy `left ≤ right` and `top ≤ bottom`,
so the rectangle built by `feature_match` and `feature_match_all` has width and
height at least `0`. -/
theorem bounds_loop_ordered (good_points : List Point) :
    (bounds_loop good_points).left ≤ (bounds_loop good_points).right
      ∧ (bounds_loop good_points).top ≤ (bounds_loop good_points).bottom
      ∧ 0 ≤ (bounds_rect (bounds_loop good_points)).width
      ∧ 0 ≤ (bounds_rect (bounds_loop good_points)).height := by
  have hord : (bounds_loop good_points).left ≤ (bounds_loop good_points).right
      ∧ (bounds_loop good_points).top ≤ (bounds_loop good_points).bottom := by
    rcases List.eq_nil_or_concat good_points with hnil | ⟨front, last, hcat⟩
    · subst hnil
      exact ⟨le_refl _, le_refl _⟩
    · subst hcat
      have hstep : bounds_loop (front ++ [last])
          = bounds_step (front.foldl bounds_step ⟨0, 0, 0, 0⟩) last := by
        simp [bounds_loop, List.foldl_append]
      rw [List.concat_eq_append, hstep]
      have h := bounds_step_around (front.foldl bounds_step ⟨0, 0, 0, 0⟩) last
      exact ⟨le_trans h.1 h.2.1, le_trans h.2.2.1 h.2.2.2⟩
  refine ⟨hord.1, hord.2, ?_, ?_⟩
  · simp only [bounds_rect]
    have := hord.1
    omega
  · simp only [bounds_rect]
    have := hord.2
    omega

/-- The rectangle is well formed also where it is not the bounding box: the
points of C7, and points on both sides of zero. -/
theorem bounds_loop_ordered_example :
    bounds_rect (bounds_loop [⟨0, 10⟩, ⟨30, 40⟩]) = ⟨30, 10, 0, 30⟩
      ∧ bounds_rect (bounds_loop [⟨-5, 3⟩, ⟨0, 0⟩, ⟨-3, -7⟩]) = ⟨-5, -7, 2, 10⟩ := by
  decide

end BoundingBox

section RatioPruning

variable {Mat Hist Desc Score : Type}

theorem getElem?_of_index (l : List KeyPoint) (i : Int) (h0 : 0 ≤ i) (hlt : i < l.length) :
    ∃ k, l[i.toNat]? = some k := by
  have hi : i.toNat < l.length := by omega
  exact ⟨l[i.toNat], List.getElem?_eq_getElem hi⟩

theorem approach_step_kept (maxdist : Int) (q t : List KeyPoint) (acc : List Approach)
    (m : DMatch)
    (hkeep : 5 * m.distance < 2 * maxdist ∧ 0 ≤ m.queryIdx ∧ m.queryIdx < (q.length : Int)
      ∧ 0 ≤ m.trainIdx ∧ m.trainIdx < (t.length : Int)) :
    ∃ a, a.dmatch = m ∧ t[m.trainIdx.toNat]? = some a.train_keypoint
      ∧ q[m.queryIdx.toNat]? = some a.query_keypoint
      ∧ approach_step maxdist q t acc m = acc ++ [a] := by
  obtain ⟨tk, htk⟩ := getElem?_of_index t m.trainIdx hkeep.2.2.2.1 hkeep.2.2.2.2
  obtain ⟨qk, hqk⟩ := getElem?_of_index q m.queryIdx hkeep.2.1 hkeep.2.2.1
  have hd : m.distance * MatchRatio_den < maxdist * MatchRatio_num := by
    simp only [MatchRatio_den, MatchRatio_num]; omega
  refine ⟨⟨m, tk, qk⟩, rfl, htk, hqk, ?_⟩
  simp only [approach_step, hd, if_true, hkeep.2, and_self, htk, hqk]

theorem approach_step_dropped (maxdist : Int) (q t : List KeyPoint) (acc : List Approach)
    (m : DMatch)
    (hdrop : ¬ (5 * m.distance < 2 * maxdist ∧ 0 ≤ m.queryIdx ∧ m.queryIdx < (q.length : Int)
      ∧ 0 ≤ m.trainIdx ∧ m.trainIdx < (t.length : Int))) :
    approach_step maxdist q t acc m = acc := by
  by_cases hd : m.distance * MatchRatio_den < maxdist * MatchRatio_num
  · have hd5 : 5 * m.distance < 2 * maxdist := by
      simp only [MatchRatio_den, MatchRatio_num] at hd; omega
    have hidx : ¬ (0 ≤ m.queryIdx ∧ m.queryIdx < (q.length : Int)
        ∧ 0 ≤ m.trainIdx ∧ m.trainIdx < (t.length : Int)) := fun h => hdrop ⟨hd5, h⟩
    simp only [approach_step, hd, if_true, hidx, if_false]
  · simp only [approach_step, hd, if_false]

theorem approach_foldl (maxdist : Int) (q t : List KeyPoint) (ms : List DMatch)
    (acc : List Approach) :
    ∃ rows, ms.foldl (approach_step maxdist q t) acc = acc ++ rows
      ∧ (rows.map fun a => a.dmatch)
        = ms.filter (fun m => decide (5 * m.distance < 2 * maxdist ∧ 0 ≤ m.queryIdx
            ∧ m.queryIdx < (q.length : Int) ∧ 0 ≤ m.trainIdx ∧ m.trainIdx < (t.length : Int)))
      ∧ ∀ a ∈ rows, t[a.dmatch.trainIdx.toNat]? = some a.train_keypoint
          ∧ q[a.dmatch.queryIdx.toNat]? = some a.query_keypoint := by
  induction ms generalizing acc with
  | nil => exact ⟨[], by simp, by simp, by simp⟩
  | cons m rest ih =>
    by_cases hkeep : 5 * m.distance < 2 * maxdist ∧ 0 ≤ m.queryIdx ∧ m.queryIdx < (q.length : Int)
        ∧ 0 ≤ m.trainIdx ∧ m.trainIdx < (t.length : Int)
    · obtain ⟨a, ham, hat, haq, hstep⟩ := approach_step_kept maxdist q t acc m hkeep
      obtain ⟨rows, hrows, hmap, hkp⟩ := ih (acc ++ [a])
      refine ⟨a :: rows, ?_, ?_, ?_⟩
      · rw [List.foldl_cons, hstep, hrows]; simp
      · rw [List.map_cons, hmap, ham, List.filter_cons]
        simp [hkeep]
      · intro b hb
        rcases List.mem_cons.mp hb with heq | hmem
        · subst heq; rw [ham]; exact ⟨hat, haq⟩
        · exact hkp b hmem
    · obtain ⟨rows, hrows, hmap, hkp⟩ := ih acc
      refine ⟨rows, ?_, ?_, hkp⟩
      · rw [List.foldl_cons, approach_step_dropped maxdist q t acc m hkeep, hrows]
      · rw [hmap, List.filter_cons]
        simp [hkeep]

/-- Ratio pruning on the nine correspondences of `nine_matches`: the largest
distance is `10`, the eight at distance `1` are kept, the one at `10` is not;
with a single correspondence nothing is kept and `feature_match` returns none. -/
theorem ratio_pruning_example :
    ((nine_matches.foldl (approach_step 10 nine_keypoints scene_points) []).map fun a => a.dmatch)
        = [⟨0, 0, 1⟩, ⟨1, 1, 1⟩, ⟨2, 2, 1⟩, ⟨3, 3, 1⟩, ⟨4, 4, 1⟩, ⟨5, 5, 1⟩, ⟨6, 6, 1⟩, ⟨7, 7, 1⟩]
      ∧ feature_match (sample_cv scene_points [⟨0, 0, 3⟩] [1] []) one_feature 0 "k" = .ok none := by
  decide

theorem excess_bits_lt (fuel N : Nat) (h : N < 2 ^ (53 + fuel)) :
    N < 2 ^ excess_bits fuel N * 2 ^ 53 := by
  induction fuel generalizing N with
  | zero => simpa [excess_bits] using h
  | succ fuel ih =>
    by_cases hsmall : N < 2 ^ 53
    · rw [excess_bits, if_pos hsmall]; omega
    · rw [excess_bits, if_neg hsmall, pow_succ]
      have hhalf : N / 2 < 2 ^ (53 + fuel) := by
        have : 2 ^ (53 + (fuel + 1)) = 2 * 2 ^ (53 + fuel) := by
          rw [← Nat.add_assoc, pow_succ]; ring
        omega
      have := ih (N / 2) hhalf
      generalize 2 ^ excess_bits fuel (N / 2) = E at *
      omega

theorem round_dvd (N : Nat) : 2 ^ excess_bits 128 N ∣ round_binary64 N := by
  simp only [round_binary64]
  split
  · exact Dvd.intro_left _ rfl
  · exact Dvd.intro_left _ rfl

theorem round_upper (N : Nat) :
    2 * round_binary64 N ≤ 2 * N + 2 ^ excess_bits 128 N := by
  have hpos : 0 < 2 ^ excess_bits 128 N := Nat.pos_pow_of_pos _ (by norm_num)
  have hdm := Nat.div_add_mod N (2 ^ excess_bits 128 N)
  have hmod := Nat.mod_lt N hpos
  simp only [round_binary64]
  generalize 2 ^ excess_bits 128 N = E at *
  generalize N / E = q at *
  generalize N % E = r at *
  split
  · have : q * E = E * q := Nat.mul_comm _ _
    omega
  · rename_i h
    have : (q + 1) * E = E * q + E := by ring
    have hge : E ≤ 2 * r := by
      by_contra hlt
      exact h (Or.inl (by omega))
    omega

theorem round_ge_multiple (N K : Nat) (hK : K ≤ N) (hdvd : 2 ^ excess_bits 128 N ∣ K) :
    K ≤ round_binary64 N := by
  obtain ⟨m, rfl⟩ := hdvd
  have hpos : 0 < 2 ^ excess_bits 128 N := Nat.pos_pow_of_pos _ (by norm_num)
  have hdm := Nat.div_add_mod N (2 ^ excess_bits 128 N)
  have hmod := Nat.mod_lt N hpos
  simp only [round_binary64]
  generalize 2 ^ excess_bits 128 N = E at *
  generalize N / E = q at *
  generalize N % E = r at *
  have hmq : m ≤ q := by
    by_contra hlt
    have h1 : q + 1 ≤ m := by omega
    have h2 : E * (q + 1) ≤ E * m := Nat.mul_le_mul_left E h1
    have h3 : E * (q + 1) = E * q + E := by ring
    omega
  have h4 : E * m ≤ q * E := by
    calc E * m ≤ E * q := Nat.mul_le_mul_left E hmq
      _ = q * E := Nat.mul_comm _ _
  split
  · exact h4
  · have : (q + 1) * E = q * E + E := by ring
    omega

/-- The ratio test in binary64 arithmetic agrees with the exact comparison
`5 * distance < 2 * maxdist`.  The unit is the smaller of the units in the last
place of the two `float` distances, so both are natural numbers and one of
them is below `2 ^ 24`. -/
theorem ratio_kept_binary64_eq (distance maxdist : Nat)
    (hunit : distance < 2 ^ 24 ∨ maxdist < 2 ^ 24) (hmax : maxdist < 2 ^ 100) :
    ratio_kept_binary64 distance maxdist = decide (5 * distance < 2 * maxdist) := by
  have hP : maxdist * 3602879701896397 < 2 ^ (53 + 128) := by
    have : maxdist * 3602879701896397 < 2 ^ 100 * 2 ^ 53 := by omega
    calc maxdist * 3602879701896397 < 2 ^ 100 * 2 ^ 53 := this
      _ ≤ 2 ^ (53 + 128) := by norm_num
  have hlt := excess_bits_lt 128 _ hP
  have hle := excess_bits_le 128 (maxdist * 3602879701896397)
  have hsmall := round_small (maxdist * 3602879701896397)
  have hzero := excess_bits_small 128 (maxdist * 3602879701896397)
  have hlow := round_lower (maxdist * 3602879701896397)
  have hupp := round_upper (maxdist * 3602879701896397)
  have hRdvd := round_dvd (maxdist * 3602879701896397)
  simp only [ratio_kept_binary64, MatchRatio_binary64]
  rw [decide_eq_decide]
  by_cases hcase : 5 * distance < 2 * maxdist
  · -- kept
    simp only [hcase, iff_true]
    by_cases hbig : 2 ^ 53 ≤ maxdist * 3602879701896397
    · have hE := hle hbig
      generalize 2 ^ excess_bits 128 (maxdist * 3602879701896397) = E at *
      generalize round_binary64 (maxdist * 3602879701896397) = R at *
      by_cases hm : maxdist < 2 ^ 53
      · omega
      · have hd : distance < 2 ^ 24 := by omega
        omega
    · rw [hsmall (by omega)]
      omega
  · -- dropped
    simp only [hcase, iff_false, not_lt]
    have hm26 : maxdist < 2 ^ 26 := by omega
    have he : excess_bits 128 (maxdist * 3602879701896397) ≤ 53 := by
      by_cases hbig : 2 ^ 53 ≤ maxdist * 3602879701896397
      · have h1 := hle hbig
        by_contra hgt
        have h2 : 2 ^ 54 ≤ 2 ^ excess_bits 128 (maxdist * 3602879701896397) :=
          Nat.pow_le_pow_right (by norm_num) (by omega)
        have h3 : 2 ^ 54 * 2 ^ 52
            ≤ 2 ^ excess_bits 128 (maxdist * 3602879701896397) * 2 ^ 52 :=
          Nat.mul_le_mul_right _ h2
        omega
      · rw [hzero (by omega)]; omega
    have hKdvd : 2 ^ excess_bits 128 (maxdist * 3602879701896397) ∣ distance * 2 ^ 53 :=
      Dvd.dvd.mul_left (pow_dvd_pow 2 he) _
    by_cases heq : 5 * distance = 2 * maxdist
    · -- the tie: the product is just above `distance`, and rounds to it
      apply Nat.le_of_lt_add_of_dvd _ hRdvd hKdvd
      generalize 2 ^ excess_bits 128 (maxdist * 3602879701896397) = E at *
      generalize round_binary64 (maxdist * 3602879701896397) = R at *
      omega
    · exact round_le_multiple _ _ (by omega) hKdvd

/-- The ratio test in binary64 arithmetic at the boundary `5 * d = 2 * maxdist`
and next to it, and at the largest distance. -/
theorem ratio_kept_binary64_boundary :
    ratio_kept_binary64 2 5 = false ∧ ratio_kept_binary64 1 5 = true
      ∧ ratio_kept_binary64 3999999 10000000 = true
      ∧ ratio_kept_binary64 4000000 10000000 = false
      ∧ ratio_kept_binary64 10000000 10000000 = false := by
  decide

end RatioPruning

section CacheHit

variable {V Mat Hist Desc Score : Type} [Zero Score] [One Score] [Sub Score] [LE Score]
  [DecidableRel (fun a b : Score => a ≤ b)]

theorem map_find_append_of_some (m rest : List (String × V)) (key : String) (entry : V)
    (h : map_find m key = some entry) : map_find (m ++ rest) key = some entry := by
  induction m with
  | nil => simp [map_find] at h
  | cons kv tail ih =>
    obtain ⟨k, v⟩ := kv
    by_cases hk : k = key
    · simpa [map_find, hk] using h
    · simp only [map_find, hk, if_false] at h
      simpa [map_find, hk] using ih h

theorem map_find_emplace_of_some (m : List (String × V)) (key other : String) (entry value : V)
    (h : map_find m key = some entry) : map_find (map_emplace m other value) key = some entry := by
  simp only [map_emplace]
  split
  · exact h
  · exact map_find_append_of_some m _ key entry h

theorem find_image_keeps_entry (cv : Externals Mat Hist Desc Score) (self : Identify Mat Hist Desc)
    (cur : Mat) (templ : String) (templ_threshold : Score) (key : String) (entry : CvRect × Hist)
    (h : map_find self.m_cache_map key = some entry) :
    map_find (find_image cv self cur templ templ_threshold).2.m_cache_map key = some entry := by
  simp only [find_image]
  split
  · exact h
  · split
    · exact h
    · simp only []
      split
      · exact map_find_emplace_of_some _ key templ entry _ h
      · exact h

/-- C16. When caching is enabled and the cache holds an entry for a registered
label, `find_image` returns kind `CompareHist` with the cached rectangle zoomed
and the histogram score, and leaves the state, the whole cache included, as it
was, whatever the score and the threshold.  Moreover no call other than
`set_use_cache(false)` and `clear_cache` changes what the cache holds for a
label that has an entry, and those two calls remove every entry. -/
theorem find_image_cache_hit (cv : Externals Mat Hist Desc Score) (self : Identify Mat Hist Desc)
    (cur : Mat) (templ : String) (templ_threshold : Score) (templ_mat : Mat) (rect : CvRect)
    (hist : Hist)
    (hcache : self.m_use_cache = true)
    (hreg : map_find self.m_mat_map templ = some templ_mat)
    (hhit : map_find self.m_cache_map templ = some (rect, hist)) :
    find_image cv self cur templ templ_threshold
        = ((AlgorithmType.CompareHist,
            1 - cv.compareHist (cv.image_2_hist (cv.roi cur rect)) hist,
            cv.center_zoom (⟨rect.x, rect.y, rect.width, rect.height⟩ : Rect)), self)
      ∧ (∀ (state : Identify Mat Hist Desc) (c : Call Mat Score) (key : String)
          (entry : CvRect × Hist),
          map_find state.m_cache_map key = some entry →
          c ≠ Call.set_use_cache false → c ≠ Call.clear_cache →
          map_find (after_call cv state c).m_cache_map key = some entry)
      ∧ (∀ (state : Identify Mat Hist Desc),
          (after_call cv state (Call.set_use_cache false)).m_cache_map = []
            ∧ (after_call cv state Call.clear_cache).m_cache_map = []) := by
  refine ⟨?_, ?_, ?_⟩
  · simp only [find_image, hreg, hcache, hhit, if_true, image_hist_comp, cvrect_2_rect]
  · intro state c key entry hentry hoff hclear
    cases c with
    | add_image name path =>
      simp only [after_call, add_image]
      split <;> exact hentry
    | add_text_image text path =>
      simp only [after_call, add_text_image]
      split <;> exact hentry
    | set_use_cache b =>
      cases b with
      | false => exact absurd rfl hoff
      | true => simpa [after_call, set_use_cache] using hentry
    | clear_cache => exact absurd rfl hclear
    | find_image cur2 templ2 threshold2 =>
      exact find_image_keeps_entry cv state cur2 templ2 threshold2 key entry hentry
  · intro state
    simp [after_call, set_use_cache, clear_cache]

theorem find_image_cache_hit_witness :
    ((Identify.mk [("b", 3)] [] true [("b", (⟨3, 4, 3, 3⟩, 12))] : Identify Nat Nat Nat).m_use_cache
          = true
        ∧ map_find (Identify.mk [("b", 3)] [] true [("b", (⟨3, 4, 3, 3⟩, 12))]
            : Identify Nat Nat Nat).m_mat_map "b" = some 3
        ∧ map_find (Identify.mk [("b", 3)] [] true [("b", (⟨3, 4, 3, 3⟩, 12))]
            : Identify Nat Nat Nat).m_cache_map "b" = some (⟨3, 4, 3, 3⟩, 12))
      ∧ find_image plain_cv ⟨[("b", 3)], [], true, [("b", (⟨3, 4, 3, 3⟩, 12))]⟩ 2 "b" 100
          = ((AlgorithmType.CompareHist,
              1 - plain_cv.compareHist (plain_cv.image_2_hist (plain_cv.roi 2 ⟨3, 4, 3, 3⟩)) 12,
              plain_cv.center_zoom (⟨3, 4, 3, 3⟩ : Rect)),
            ⟨[("b", 3)], [], true, [("b", (⟨3, 4, 3, 3⟩, 12))]⟩)
      ∧ (find_image plain_cv ⟨[("b", 3)], [], true, [("b", (⟨3, 4, 3, 3⟩, 12))]⟩ 2 "b" 100).1
          = (AlgorithmType.CompareHist, 0, ⟨4, 5, 1, 1⟩)
      ∧ (find_image plain_cv ⟨[("b", 3)], [], true, [("b", (⟨3, 4, 3, 3⟩, 12))]⟩ 9 "b" 100).1
          = (AlgorithmType.CompareHist, 1, ⟨4, 5, 1, 1⟩) :=
  ⟨⟨by decide, by decide, by decide⟩,
    (find_image_cache_hit plain_cv ⟨[("b", 3)], [], true, [("b", (⟨3, 4, 3, 3⟩, 12))]⟩ 2 "b" 100 3
      ⟨3, 4, 3, 3⟩ 12 (by decide) (by decide) (by decide)).1,
    by decide, by decide⟩

end CacheHit

section Survivors

variable {Mat Hist Desc Score : Type}

theorem feature_match_with_some (thr : Int) (cv : Externals Mat Hist Desc Score)
    (self : Identify Mat Hist Desc) (mat : Mat) (key : String) (ta : TextArea)
    (h : feature_match_with thr cv self mat key = .ok (some ta)) :
    ∃ feature worst pruned inliers,
      map_find self.m_feature_map key = some feature
        ∧ max_element (cv.flann_match feature.2 (cv.surf_detect mat).2) = some worst
        ∧ pruned = (cv.flann_match feature.2 (cv.surf_detect mat).2).foldl
            (approach_step worst.distance feature.1 (cv.surf_detect mat).1) []
        ∧ ransac_loop
            (cv.findFundamentalMat (pruned.map fun a => point2f_to_point cv a.query_keypoint.pt)
              (pruned.map fun a => point2f_to_point cv a.train_keypoint.pt)) 0 pruned
          = .ok inliers
        ∧ inliers ≠ []
        ∧ accept_area key feature.1.length
            ((centroid_loop thr (avg_point (sum_points inliers) inliers.length) inliers).map
              fun a => point2f_to_point cv a.train_keypoint.pt) = some ta := by
  simp only [feature_match_with] at h
  cases hfind : map_find self.m_feature_map key with
  | none => simp [hfind] at h
  | some feature =>
    simp only [hfind] at h
    cases hmax : max_element (cv.flann_match feature.2 (cv.surf_detect mat).2) with
    | none => simp [hmax] at h
    | some worst =>
      simp only [hmax] at h
      cases hloop : ransac_loop
          (cv.findFundamentalMat
            (((cv.flann_match feature.2 (cv.surf_detect mat).2).foldl
              (approach_step worst.distance feature.1 (cv.surf_detect mat).1) []).map
                fun a => point2f_to_point cv a.query_keypoint.pt)
            (((cv.flann_match feature.2 (cv.surf_detect mat).2).foldl
              (approach_step worst.distance feature.1 (cv.surf_detect mat).1) []).map
                fun a => point2f_to_point cv a.train_keypoint.pt)) 0
          ((cv.flann_match feature.2 (cv.surf_detect mat).2).foldl
            (approach_step worst.distance feature.1 (cv.surf_detect mat).1) []) with
      | error e => simp [hloop] at h
      | ok inliers =>
        simp only [hloop] at h
        by_cases hz : inliers.length = 0
        · simp [hz] at h
        · simp only [hz, if_false, Except.ok.injEq] at h
          refine ⟨feature, worst, _, inliers, rfl, hmax, rfl, hloop, ?_, h⟩
          intro hnil
          exact hz (by rw [hnil]; rfl)

theorem feature_match_with_of_parts (thr : Int) (cv : Externals Mat Hist Desc Score)
    (self : Identify Mat Hist Desc) (mat : Mat) (key : String)
    (feature : List KeyPoint × Desc) (worst : DMatch) (inliers : List Approach)
    (hfind : map_find self.m_feature_map key = some feature)
    (hmax : max_element (cv.flann_match feature.2 (cv.surf_detect mat).2) = some worst)
    (hloop : ransac_loop
      (cv.findFundamentalMat
        (((cv.flann_match feature.2 (cv.surf_detect mat).2).foldl
          (approach_step worst.distance feature.1 (cv.surf_detect mat).1) []).map
            fun a => point2f_to_point cv a.query_keypoint.pt)
        (((cv.flann_match feature.2 (cv.surf_detect mat).2).foldl
          (approach_step worst.distance feature.1 (cv.surf_detect mat).1) []).map
            fun a => point2f_to_point cv a.train_keypoint.pt)) 0
      ((cv.flann_match feature.2 (cv.surf_detect mat).2).foldl
        (approach_step worst.distance feature.1 (cv.surf_detect mat).1) []) = .ok inliers)
    (hne : inliers ≠ []) :
    feature_match_with thr cv self mat key
      = .ok (accept_area key feature.1.length
          ((centroid_loop thr (avg_point (sum_points inliers) inliers.length) inliers).map
            fun a => point2f_to_point cv a.train_keypoint.pt)) := by
  have hz : ¬ inliers.length = 0 := fun h => hne (List.length_eq_zero.mp h)
  simp only [feature_match_with, hfind, hmax, hloop, hz, if_false]

theorem feature_match_eq_with (cv : Externals Mat Hist Desc Score) (self : Identify Mat Hist Desc)
    (mat : Mat) (key : String) :
    feature_match cv self mat key = feature_match_with 200 cv self mat key := by
  simp only [feature_match, feature_match_with, feature_match_tail]
  cases map_find self.m_feature_map key with
  | none => rfl
  | some feature =>
    simp only []
    cases max_element (cv.flann_match feature.2 (cv.surf_detect mat).2) with
    | none => rfl
    | some worst =>
      simp only []
      cases ransac_loop _ 0 _ with
      | error e => rfl
      | ok inliers =>
        simp only []
        by_cases hz : inliers.length = 0 <;> simp [hz]

theorem centroid_loop_length_mono (near far : Int) (hle : near ≤ far) (centroid : Point)
    (inliers : List Approach) :
    (centroid_loop near centroid inliers).length ≤ (centroid_loop far centroid inliers).length := by
  apply List.Sublist.length_le
  apply List.monotone_filter_right
  intro a ha
  simp only [decide_eq_true_eq] at ha ⊢
  exact ⟨lt_of_lt_of_le ha.1 hle, lt_of_lt_of_le ha.2 hle⟩

theorem accept_area_mono (key : String) (query_size : Nat) (fewer more : List Point) (ta : TextArea)
    (hlen : fewer.length ≤ more.length) (h : accept_area key query_size fewer = some ta) :
    ∃ ta2, accept_area key query_size more = some ta2 ∧ ta2.text = key := by
  have hacc : size_accepted fewer.length query_size = true := by
    by_contra hno
    simp [accept_area, hno] at h
  have hmore : size_accepted more.length query_size = true := by
    simp only [size_accepted, MatchSizeRatioThreshold_den, MatchSizeRatioThreshold_num,
      decide_eq_true_eq] at hacc ⊢
    omega
  exact ⟨⟨key, bounds_rect (bounds_loop more)⟩, by simp only [accept_area, hmore, if_true], rfl⟩

theorem map_find_mem (m : List (String × (List KeyPoint × Desc))) (key : String)
    (feature : List KeyPoint × Desc) (h : map_find m key = some feature) : (key, feature) ∈ m := by
  induction m with
  | nil => simp [map_find] at h
  | cons kv rest ih =>
    obtain ⟨k, v⟩ := kv
    by_cases hk : k = key
    · simp only [map_find, hk, if_true, Option.some.injEq] at h
      rw [hk, h]; exact List.mem_cons_self _ _
    · simp only [map_find, hk, if_false] at h
      exact List.mem_cons_of_mem _ (ih h)

/-- The monotonicity behind C17.  If `feature_match` returns a `TextArea` for a
label, the pipeline with threshold 300 returns one for that label as well,
since every inlier within 200 of the centroid is within 300; and when
`feature_match_all` returns (the store having one entry per label), its result
contains a `TextArea` for that label. -/
theorem feature_match_all_monotone (cv : Externals Mat Hist Desc Score)
    (self : Identify Mat Hist Desc) (mat : Mat) (key : String) (ta : TextArea)
    (hunique : (self.m_feature_map.map Prod.fst).Nodup)
    (h : feature_match cv self mat key = .ok (some ta)) :
    (∃ ta2, feature_match_with 300 cv self mat key = .ok (some ta2) ∧ ta2.text = key)
      ∧ ∀ areas, feature_match_all cv self mat = .ok areas → ∃ ta2 ∈ areas, ta2.text = key := by
  rw [feature_match_eq_with] at h
  obtain ⟨feature, worst, pruned, inliers, hfind, hmax, hpruned, hloop, hne, hacc⟩ :=
    feature_match_with_some 200 cv self mat key ta h
  subst hpruned
  obtain ⟨ta2, hta2, htext⟩ := accept_area_mono key feature.1.length _
    ((centroid_loop 300 (avg_point (sum_points inliers) inliers.length) inliers).map
      fun a => point2f_to_point cv a.train_keypoint.pt) ta
    (by
      rw [List.length_map, List.length_map]
      exact centroid_loop_length_mono 200 300 (by decide) _ inliers) hacc
  have hwide : feature_match_with 300 cv self mat key = .ok (some ta2) := by
    rw [feature_match_with_of_parts 300 cv self mat key feature worst inliers hfind hmax hloop hne,
      hta2]
  refine ⟨⟨ta2, hwide, htext⟩, ?_⟩
  intro areas hok
  have hmem := ((feature_match_all_refines cv self mat hunique).2.2 areas hok).1 ta2
  exact ⟨ta2, hmem.mpr ⟨(key, feature), map_find_mem _ key feature hfind, hwide⟩, htext⟩

set_option maxRecDepth 100000 in
/-- C17. The code on a store with the labels `"j"` and `"k"`: `feature_match`
returns a `TextArea` for `"k"`, but `feature_match_all` on the same frame
raises `out_of_range` at the label `"j"`, whose status vector is empty, and so
contains no `TextArea` for `"k"`. -/
theorem feature_match_all_misses_label :
    feature_match feature_cv sparse_first 0 "k" = .ok (some ⟨"k", ⟨5, 10, 25, 30⟩⟩)
      ∧ feature_match_all feature_cv sparse_first 0 = .error Exception.out_of_range := by
  decide

theorem ransac_loop_mem (status : List Nat) (i : Nat) (rows kept : List Approach)
    (h : ransac_loop status i rows = .ok kept) : ∀ a ∈ kept, a ∈ rows := by
  induction rows generalizing i kept with
  | nil =>
    simp only [ransac_loop, Except.ok.injEq] at h
    subst h
    intro a ha; cases ha
  | cons r rest ih =>
    simp only [ransac_loop] at h
    cases hs : status[i]? with
    | none => simp [hs] at h
    | some flag =>
      simp only [hs] at h
      cases hrest : ransac_loop status (i + 1) rest with
      | error e => simp [hrest] at h
      | ok tail =>
        simp only [hrest, Except.ok.injEq] at h
        have htail := ih (i + 1) tail hrest
        intro a ha
        rw [← h] at ha
        split at ha
        · rcases List.mem_cons.mp ha with heq | hmem
          · rw [heq]; exact List.mem_cons_self _ _
          · exact List.mem_cons_of_mem _ (htail a hmem)
        · exact List.mem_cons_of_mem _ (htail a ha)

theorem pruned_rows_real (maxdist : Int) (q t : List KeyPoint) (ms : List DMatch) :
    ∀ a ∈ ms.foldl (approach_step maxdist q t) [], a.train_keypoint ∈ t ∧ q ≠ [] := by
  obtain ⟨rows, hrows, _, hkp⟩ := approach_foldl maxdist q t ms []
  rw [hrows, List.nil_append]
  intro a ha
  obtain ⟨ht, hq⟩ := hkp a ha
  refine ⟨List.getElem?_mem ht, ?_⟩
  intro hnil
  rw [hnil] at hq
  simp at hq

theorem accept_area_nonempty (key : String) (query_size : Nat) (good_points : List Point)
    (ta : TextArea) (hn : 0 < query_size) (h : accept_area key query_size good_points = some ta) :
    good_points ≠ [] ∧ ta = ⟨key, bounds_rect (bounds_loop good_points)⟩ := by
  by_cases hacc : size_accepted good_points.length query_size = true
  · simp only [accept_area, hacc, if_true, Option.some.injEq] at h
    refine ⟨?_, h.symm⟩
    intro hnil
    rw [hnil] at hacc
    simp only [size_accepted, MatchSizeRatioThreshold_den, MatchSizeRatioThreshold_num,
      List.length_nil, decide_eq_true_eq] at hacc
    omega
  · simp [accept_area, hacc] at h

theorem feature_match_with_survivors (thr : Int) (cv : Externals Mat Hist Desc Score)
    (self : Identify Mat Hist Desc) (mat : Mat) (key : String) (ta : TextArea)
    (h : feature_match_with thr cv self mat key = .ok (some ta)) :
    built_from_survivors thr cv self mat key ta := by
  obtain ⟨feature, worst, pruned, inliers, hfind, hmax, hpruned, hloop, hne, hacc⟩ :=
    feature_match_with_some thr cv self mat key ta h
  subst hpruned
  have hreal : ∀ a ∈ inliers, a.train_keypoint ∈ (cv.surf_detect mat).1 ∧ feature.1 ≠ [] :=
    fun a ha => pruned_rows_real worst.distance feature.1 (cv.surf_detect mat).1 _ a
      (ransac_loop_mem _ 0 _ inliers hloop a ha)
  obtain ⟨first, hfirst⟩ := List.exists_mem_of_ne_nil inliers hne
  have hq : feature.1 ≠ [] := (hreal first hfirst).2
  have hn : 0 < feature.1.length := List.length_pos.mpr hq
  obtain ⟨hgood, hta⟩ := accept_area_nonempty key feature.1.length _ ta hn hacc
  refine ⟨feature, worst, inliers, hfind, hq, hmax, hloop, fun a ha => (hreal a ha).1, ?_, hta⟩
  intro hnil
  exact hgood (by rw [hnil]; rfl)

/-- C18. Whenever `feature_match` returns a `TextArea`, and for every `TextArea`
in a result of `feature_match_all` (the store having one entry per label), at
least one point survived the centroid filter and the rectangle is built from
the surviving points, which are positions of key points of the frame.  The
acceptance test cannot pass with no surviving point unless there is no query
key point, and then no correspondence passes the index range check and the
zero-inlier check has already returned none. -/
theorem accepted_area_has_points (cv : Externals Mat Hist Desc Score)
    (self : Identify Mat Hist Desc) (mat : Mat) :
    (∀ key ta, feature_match cv self mat key = .ok (some ta) →
        built_from_survivors 200 cv self mat key ta)
      ∧ ((self.m_feature_map.map Prod.fst).Nodup →
          ∀ areas ta, feature_match_all cv self mat = .ok areas → ta ∈ areas →
            built_from_survivors 300 cv self mat ta.text ta)
      ∧ (∀ (key : String) (query_size : Nat), 0 < query_size →
          accept_area key query_size [] = none)
      ∧ (∀ (maxdist : Int) (t : List KeyPoint) (ms : List DMatch),
          ms.foldl (approach_step maxdist [] t) [] = []) := by
  refine ⟨?_, ?_, ?_, ?_⟩
  · intro key ta h
    rw [feature_match_eq_with] at h
    exact feature_match_with_survivors 200 cv self mat key ta h
  · intro hunique areas ta hok hmem
    obtain ⟨entry, _, hentry⟩ :=
      (((feature_match_all_refines cv self mat hunique).2.2 areas hok).1 ta).mp hmem
    have htext := feature_match_with_text 300 cv self mat entry.1 ta hentry
    rw [htext]
    exact feature_match_with_survivors 300 cv self mat entry.1 ta hentry
  · intro key query_size hn
    cases h : accept_area key query_size [] with
    | none => rfl
    | some ta => exact absurd rfl (accept_area_nonempty key query_size [] ta hn h).1
  · intro maxdist t ms
    cases hrows : ms.foldl (approach_step maxdist [] t) [] with
    | nil => rfl
    | cons a rest =>
      have := (pruned_rows_real maxdist [] t ms a (by rw [hrows]; exact List.mem_cons_self _ _)).2
      exact absurd rfl this

set_option maxRecDepth 100000 in
theorem accepted_area_has_points_witness :
    feature_match feature_cv one_feature 0 "k" = .ok (some ⟨"k", ⟨5, 10, 25, 30⟩⟩)
      ∧ built_from_survivors 200 feature_cv one_feature 0 "k" ⟨"k", ⟨5, 10, 25, 30⟩⟩ :=
  ⟨by decide, (accepted_area_has_points feature_cv one_feature 0).1 "k" ⟨"k", ⟨5, 10, 25, 30⟩⟩
    (by decide)⟩

end Survivors

end Asst
